import Mathlib

/-!
# Verification of the go-bulletml runner against its specification

This file is a shallow embedding of the core of the `bulletml` Go package
(the current revisions of `runner.go` and `bulletml.go`): the IEEE-754
value domain is idealized as exact rationals extended with infinities and
NaN, the expression compiler/evaluator, the document `prepare` walk, the
definition-table lookup, and the per-tick action-process interpreter are
translated function by function, and the claims of the specification are
settled as theorems about these definitions.

Modelling conventions, stated once here:
* `float64` values are modelled by `GF`: an exact rational (`fin`) or one
  of `inf`, `ninf`, `nan`.  Arithmetic on finite values is exact (no
  rounding) and there is no signed zero; special values follow IEEE-754.
* Go runtime panics (integer division by zero) are the `crash` outcome;
  implementation-dependent results (float-to-int64 conversion of a value
  outside the int64 range) are the `undef` outcome.
* The transcendental library functions `math.Sin`, `math.Cos`,
  `math.Atan2`, `math.Sqrt` and the random source are parameters of the
  environment (`Env`): the theorems hold for every choice of them.
* `math.Pi` is the exact rational value of the IEEE-754 double nearest
  to pi, `pi64`.
-/

set_option maxRecDepth 2000

namespace BulletMLProof

/-- The exact rational value of the `float64` constant `math.Pi`. -/
def pi64 : ℚ := 884279719003555 / 281474976710656

theorem pi64_pos : 0 < pi64 := by norm_num [pi64]

/-- Model of a Go `float64` value: an exact rational, `+Inf`, `-Inf` or `NaN`.
Finite arithmetic is exact and signed zero is not distinguished. -/
inductive GF where
  | fin (q : ℚ)
  | inf
  | ninf
  | nan
deriving DecidableEq, Repr

namespace GF

/-- IEEE-754 negation. -/
def neg : GF → GF
  | fin q => fin (-q)
  | inf => ninf
  | ninf => inf
  | nan => nan

/-- IEEE-754 addition (exact on finite values). -/
def add : GF → GF → GF
  | nan, _ => nan
  | _, nan => nan
  | fin a, fin b => fin (a + b)
  | fin _, inf => inf
  | fin _, ninf => ninf
  | inf, fin _ => inf
  | ninf, fin _ => ninf
  | inf, inf => inf
  | ninf, ninf => ninf
  | inf, ninf => nan
  | ninf, inf => nan

/-- IEEE-754 subtraction `a - b`, as `a + (-b)`. -/
def sub (a b : GF) : GF := add a (neg b)

/-- IEEE-754 multiplication (exact on finite values). -/
def mul : GF → GF → GF
  | nan, _ => nan
  | _, nan => nan
  | fin a, fin b => fin (a * b)
  | fin a, inf => if 0 < a then inf else if a < 0 then ninf else nan
  | fin a, ninf => if 0 < a then ninf else if a < 0 then inf else nan
  | inf, fin a => if 0 < a then inf else if a < 0 then ninf else nan
  | ninf, fin a => if 0 < a then ninf else if a < 0 then inf else nan
  | inf, inf => inf
  | inf, ninf => ninf
  | ninf, inf => ninf
  | ninf, ninf => inf

/-- IEEE-754 division (exact on finite values; division of a nonzero
finite value by zero yields a signed infinity, `0/0` yields NaN; with no
signed zero, the sign of a zero divisor or dividend is taken positive). -/
def div : GF → GF → GF
  | nan, _ => nan
  | _, nan => nan
  | fin a, fin b =>
      if b = 0 then (if 0 < a then inf else if a < 0 then ninf else nan)
      else fin (a / b)
  | fin _, inf => fin 0
  | fin _, ninf => fin 0
  | inf, fin b => if 0 ≤ b then inf else ninf
  | ninf, fin b => if 0 ≤ b then ninf else inf
  | inf, inf => nan
  | inf, ninf => nan
  | ninf, inf => nan
  | ninf, ninf => nan

/-- IEEE-754 `<` comparison: NaN compares false with everything. -/
def lt : GF → GF → Bool
  | nan, _ => false
  | _, nan => false
  | fin a, fin b => decide (a < b)
  | fin _, inf => true
  | inf, _ => false
  | ninf, fin _ => true
  | ninf, inf => true
  | ninf, ninf => false
  | fin _, ninf => false

/-- IEEE-754 `>` comparison. -/
def gt (a b : GF) : Bool := lt b a

/-- IEEE-754 `==` comparison: NaN is not equal to anything, including itself. -/
def feq : GF → GF → Bool
  | nan, _ => false
  | _, nan => false
  | fin a, fin b => decide (a = b)
  | inf, inf => true
  | ninf, ninf => true
  | _, _ => false

/-- Is this value finite? -/
def isFinite : GF → Bool
  | fin _ => true
  | _ => false

end GF

/-- Truncation of a rational toward zero (the rounding used by Go
float-to-integer conversions). -/
def truncQ (q : ℚ) : ℤ := if q < 0 then ⌈q⌉ else ⌊q⌋

/-- Go conversion `int64(x)` (also `int(x)` on a 64-bit platform) from a
`float64`.  Defined (`some`) exactly when the truncated value is
representable in a signed 64-bit integer; otherwise the Go result is
implementation-dependent, modelled as `none`. -/
def toInt64 : GF → Option ℤ
  | GF.fin q =>
      let t := truncQ q
      if -(2 ^ 63) ≤ t ∧ t ≤ 2 ^ 63 - 1 then some t else none
  | _ => none

/-- Outcome of running a piece of Go code: a value, an error return, a
runtime panic (`crash`), or an implementation-dependent result (`undef`). -/
inductive Outcome (α : Type) where
  | ok (a : α)
  | err (msg : String)
  | crash
  | undef
deriving Repr, DecidableEq

instance : Monad Outcome where
  pure := Outcome.ok
  bind x f := match x with
    | .ok a => f a
    | .err m => .err m
    | .crash => .crash
    | .undef => .undef

@[simp] theorem Outcome.bind_ok {α β} (a : α) (f : α → Outcome β) :
    (Outcome.ok a >>= f) = f a := rfl

@[simp] theorem Outcome.bind_err {α β} (m : String) (f : α → Outcome β) :
    (Outcome.err m >>= f) = Outcome.err m := rfl

@[simp] theorem Outcome.bind_crash {α β} (f : α → Outcome β) :
    ((Outcome.crash : Outcome α) >>= f) = Outcome.crash := rfl

@[simp] theorem Outcome.bind_undef {α β} (f : α → Outcome β) :
    ((Outcome.undef : Outcome α) >>= f) = Outcome.undef := rfl

/-- Go expression `int64(x) % int64(y)` followed by the conversion back to
`float64` (`evaluateExpr`, `token.REM` case).  Go's `%` truncates toward
zero and panics when the divisor is zero. -/
def goRem (x y : GF) : Outcome GF :=
  match toInt64 x, toInt64 y with
  | none, _ => .undef
  | _, none => .undef
  | some a, some b => if b = 0 then .crash else .ok (.fin ((Int.tmod a b : ℤ) : ℚ))

/-! ## The angle-wrapping function `normalizeDir` (runner.go) -/

/-- First loop of `normalizeDir`: `for dir > math.Pi { dir -= math.Pi * 2 }`,
on the finite fragment. -/
def wrapDown (q : ℚ) : ℚ :=
  if h : pi64 < q then wrapDown (q - pi64 * 2) else q
termination_by (⌈(q - pi64) / (pi64 * 2)⌉).toNat
decreasing_by
  have h2 : (0 : ℚ) < pi64 * 2 := by norm_num [pi64]
  have h1 : (0 : ℚ) < (q - pi64) / (pi64 * 2) := div_pos (by linarith) h2
  have hc : 1 ≤ ⌈(q - pi64) / (pi64 * 2)⌉ := by
    have := Int.ceil_pos.mpr h1
    omega
  have he : (q - pi64 * 2 - pi64) / (pi64 * 2) = (q - pi64) / (pi64 * 2) - 1 := by
    field_simp
    ring
  have : ⌈(q - pi64 * 2 - pi64) / (pi64 * 2)⌉ = ⌈(q - pi64) / (pi64 * 2)⌉ - 1 := by
    rw [he]
    exact_mod_cast Int.ceil_sub_int ((q - pi64) / (pi64 * 2)) 1
  omega

/-- Second loop of `normalizeDir`: `for dir < -math.Pi { dir += math.Pi * 2 }`,
on the finite fragment. -/
def wrapUp (q : ℚ) : ℚ :=
  if h : q < -pi64 then wrapUp (q + pi64 * 2) else q
termination_by (⌈(-pi64 - q) / (pi64 * 2)⌉).toNat
decreasing_by
  have h2 : (0 : ℚ) < pi64 * 2 := by norm_num [pi64]
  have h1 : (0 : ℚ) < (-pi64 - q) / (pi64 * 2) := div_pos (by linarith) h2
  have hc : 1 ≤ ⌈(-pi64 - q) / (pi64 * 2)⌉ := by
    have := Int.ceil_pos.mpr h1
    omega
  have he : (-pi64 - (q + pi64 * 2)) / (pi64 * 2) = (-pi64 - q) / (pi64 * 2) - 1 := by
    field_simp
    ring
  have : ⌈(-pi64 - (q + pi64 * 2)) / (pi64 * 2)⌉ = ⌈(-pi64 - q) / (pi64 * 2)⌉ - 1 := by
    rw [he]
    exact_mod_cast Int.ceil_sub_int ((-pi64 - q) / (pi64 * 2)) 1
  omega

/-- `normalizeDir` on the finite fragment: subtract `2*pi` while above `pi`,
then add `2*pi` while below `-pi`. -/
def normalizeDirQ (q : ℚ) : ℚ := wrapUp (wrapDown q)

/-- `normalizeDir` on the full float domain.  NaN exits both loop guards
immediately and is returned unchanged, matching the Go code.  On `±Inf`
the Go loops do not terminate; the model returns the input there (this
branch is unreachable in every theorem below, and the divergence itself
is proved on the fuelled version `normalizeDirFuel`). -/
def normalizeDir : GF → GF
  | GF.fin q => GF.fin (normalizeDirQ q)
  | x => x

/-- One-loop fuelled version of the first `normalizeDir` loop, on the full
float domain, counting iterations: `none` means the loop is still running
after the given number of iterations. -/
def loopSubF : Nat → GF → Option GF
  | 0, d => if GF.gt d (GF.fin pi64) then none else some d
  | n + 1, d =>
      if GF.gt d (GF.fin pi64) then loopSubF n (GF.sub d (GF.mul (GF.fin pi64) (GF.fin 2)))
      else some d

/-- Fuelled version of the second `normalizeDir` loop. -/
def loopAddF : Nat → GF → Option GF
  | 0, d => if GF.lt d (GF.fin (-pi64)) then none else some d
  | n + 1, d =>
      if GF.lt d (GF.fin (-pi64)) then loopAddF n (GF.add d (GF.mul (GF.fin pi64) (GF.fin 2)))
      else some d

/-- Fuelled `normalizeDir`: run both loops with the given iteration budget. -/
def normalizeDirFuel (n : Nat) (d : GF) : Option GF :=
  (loopSubF n d).bind (loopAddF n)

theorem wrapDown_le (q : ℚ) : wrapDown q ≤ pi64 := by
  induction q using wrapDown.induct with
  | case1 q h ih => rw [wrapDown, dif_pos h]; exact ih
  | case2 q h => rw [wrapDown, dif_neg h]; linarith [not_lt.mp h]

theorem wrapUp_ge (q : ℚ) : -pi64 ≤ wrapUp q := by
  induction q using wrapUp.induct with
  | case1 q h ih => rw [wrapUp, dif_pos h]; exact ih
  | case2 q h => rw [wrapUp, dif_neg h]; linarith [not_lt.mp h]

theorem wrapUp_le (q : ℚ) (hq : q ≤ pi64) : wrapUp q ≤ pi64 := by
  induction q using wrapUp.induct with
  | case1 q h ih =>
      rw [wrapUp, dif_pos h]
      exact ih (by have := pi64_pos; linarith)
  | case2 q h => rw [wrapUp, dif_neg h]; exact hq

theorem normalizeDirQ_mem (q : ℚ) :
    -pi64 ≤ normalizeDirQ q ∧ normalizeDirQ q ≤ pi64 :=
  ⟨wrapUp_ge _, wrapUp_le _ (wrapDown_le q)⟩

theorem loopSubF_fin (q : ℚ) :
    ∃ n, loopSubF n (GF.fin q) = some (GF.fin (wrapDown q)) := by
  induction q using wrapDown.induct with
  | case1 q h ih =>
      obtain ⟨n, hn⟩ := ih
      refine ⟨n + 1, ?_⟩
      rw [wrapDown, dif_pos h]
      simpa [loopSubF, GF.gt, GF.lt, GF.sub, GF.neg, GF.mul, GF.add, h,
        sub_eq_add_neg] using hn
  | case2 q h =>
      refine ⟨0, ?_⟩
      rw [wrapDown, dif_neg h]
      simp [loopSubF, GF.gt, GF.lt, h]

theorem loopAddF_fin (q : ℚ) :
    ∃ n, loopAddF n (GF.fin q) = some (GF.fin (wrapUp q)) := by
  induction q using wrapUp.induct with
  | case1 q h ih =>
      obtain ⟨n, hn⟩ := ih
      refine ⟨n + 1, ?_⟩
      rw [wrapUp, dif_pos h]
      simpa [loopAddF, GF.lt, GF.mul, GF.add, h] using hn
  | case2 q h =>
      refine ⟨0, ?_⟩
      rw [wrapUp, dif_neg h]
      simp [loopAddF, GF.lt, h]

theorem loopSubF_mono {n : Nat} {d r : GF} (h : loopSubF n d = some r) :
    ∀ m, n ≤ m → loopSubF m d = some r := by
  induction n generalizing d with
  | zero =>
      intro m _
      rw [loopSubF] at h
      by_cases hg : GF.gt d (GF.fin pi64)
      · simp [hg] at h
      · cases m <;> simp [loopSubF, hg] at h ⊢ <;> exact h
  | succ n ih =>
      intro m hm
      rw [loopSubF] at h
      by_cases hg : GF.gt d (GF.fin pi64)
      · rw [if_pos hg] at h
        obtain ⟨m', rfl⟩ : ∃ m', m = m' + 1 := ⟨m - 1, by omega⟩
        rw [loopSubF, if_pos hg]
        exact ih h m' (by omega)
      · rw [if_neg hg] at h
        cases m <;> simp [loopSubF, hg] <;> exact (Option.some.injEq _ _).mp h

theorem loopAddF_mono {n : Nat} {d r : GF} (h : loopAddF n d = some r) :
    ∀ m, n ≤ m → loopAddF m d = some r := by
  induction n generalizing d with
  | zero =>
      intro m _
      rw [loopAddF] at h
      by_cases hg : GF.lt d (GF.fin (-pi64))
      · simp [hg] at h
      · cases m <;> simp [loopAddF, hg] at h ⊢ <;> exact h
  | succ n ih =>
      intro m hm
      rw [loopAddF] at h
      by_cases hg : GF.lt d (GF.fin (-pi64))
      · rw [if_pos hg] at h
        obtain ⟨m', rfl⟩ : ∃ m', m = m' + 1 := ⟨m - 1, by omega⟩
        rw [loopAddF, if_pos hg]
        exact ih h m' (by omega)
      · rw [if_neg hg] at h
        cases m <;> simp [loopAddF, hg] <;> exact (Option.some.injEq _ _).mp h

theorem normalizeDirFuel_fin (q : ℚ) :
    ∃ n, normalizeDirFuel n (GF.fin q) = some (GF.fin (normalizeDirQ q)) := by
  obtain ⟨n1, h1⟩ := loopSubF_fin q
  obtain ⟨n2, h2⟩ := loopAddF_fin (wrapDown q)
  refine ⟨n1 + n2, ?_⟩
  rw [normalizeDirFuel, loopSubF_mono h1 (n1 + n2) (by omega), Option.some_bind]
  exact loopAddF_mono h2 (n1 + n2) (by omega)

theorem loopSubF_inf (n : Nat) : loopSubF n GF.inf = none := by
  induction n with
  | zero => simp [loopSubF, GF.gt, GF.lt]
  | succ n ih => simpa [loopSubF, GF.gt, GF.lt, GF.sub, GF.neg, GF.mul, GF.add] using ih

theorem loopAddF_ninf (n : Nat) : loopAddF n GF.ninf = none := by
  induction n with
  | zero => simp [loopAddF, GF.lt]
  | succ n ih => simpa [loopAddF, GF.lt, GF.mul, GF.add] using ih

/-! ### A kernel-computable version of the wrap loops

`wrapDown`/`wrapUp` above are well-founded recursions and hence do not
reduce definitionally; the interpreter below needs a definitionally
computing version, obtained by running the loop body with the exact
iteration count precomputed.  `wrapDownC_eq`/`wrapUpC_eq` prove the two
presentations of each loop equal. -/

/-- Number of iterations performed by the first `normalizeDir` loop. -/
def wrapDownFuel (q : ℚ) : Nat := (⌈(q - pi64) / (pi64 * 2)⌉).toNat

/-- Number of iterations performed by the second `normalizeDir` loop. -/
def wrapUpFuel (q : ℚ) : Nat := (⌈(-pi64 - q) / (pi64 * 2)⌉).toNat

/-- The first loop body, fuelled. -/
def wrapDownIter : Nat → ℚ → ℚ
  | 0, q => q
  | n + 1, q => if pi64 < q then wrapDownIter n (q - pi64 * 2) else q

/-- The second loop body, fuelled. -/
def wrapUpIter : Nat → ℚ → ℚ
  | 0, q => q
  | n + 1, q => if q < -pi64 then wrapUpIter n (q + pi64 * 2) else q

theorem wrapDownFuel_pos {q : ℚ} (h : pi64 < q) : 1 ≤ wrapDownFuel q := by
  have h2 : (0 : ℚ) < pi64 * 2 := by norm_num [pi64]
  have h1 : (0 : ℚ) < (q - pi64) / (pi64 * 2) := div_pos (by linarith) h2
  have := Int.ceil_pos.mpr h1
  show 1 ≤ (⌈(q - pi64) / (pi64 * 2)⌉).toNat
  omega

theorem wrapDownFuel_step {q : ℚ} (h : pi64 < q) :
    wrapDownFuel (q - pi64 * 2) = wrapDownFuel q - 1 := by
  have hne : (pi64 * 2 : ℚ) ≠ 0 := by norm_num [pi64]
  have he : (q - pi64 * 2 - pi64) / (pi64 * 2) = (q - pi64) / (pi64 * 2) - 1 := by
    rw [show q - pi64 * 2 - pi64 = q - pi64 - pi64 * 2 by ring, sub_div, div_self hne]
  have hc : ⌈(q - pi64 * 2 - pi64) / (pi64 * 2)⌉ = ⌈(q - pi64) / (pi64 * 2)⌉ - 1 := by
    rw [he]
    exact_mod_cast Int.ceil_sub_int ((q - pi64) / (pi64 * 2)) 1
  show (⌈(q - pi64 * 2 - pi64) / (pi64 * 2)⌉).toNat =
    (⌈(q - pi64) / (pi64 * 2)⌉).toNat - 1
  rw [hc]
  omega

theorem wrapDownFuel_zero {q : ℚ} (h : ¬ pi64 < q) : wrapDownFuel q = 0 := by
  have h2 : (0 : ℚ) < pi64 * 2 := by norm_num [pi64]
  have h1 : (q - pi64) / (pi64 * 2) ≤ 0 := by
    apply div_nonpos_iff.mpr
    right
    constructor <;> linarith [not_lt.mp h]
  have : ⌈(q - pi64) / (pi64 * 2)⌉ ≤ 0 := Int.ceil_le.mpr (by exact_mod_cast h1)
  show (⌈(q - pi64) / (pi64 * 2)⌉).toNat = 0
  omega

theorem wrapDownIter_eq : ∀ n q, wrapDownFuel q ≤ n → wrapDownIter n q = wrapDown q := by
  intro n
  induction n with
  | zero =>
      intro q hq
      by_cases h : pi64 < q
      · exact absurd hq (by have := wrapDownFuel_pos h; omega)
      · rw [wrapDownIter, wrapDown, dif_neg h]
  | succ n ih =>
      intro q hq
      by_cases h : pi64 < q
      · rw [wrapDownIter, if_pos h, wrapDown, dif_pos h]
        exact ih _ (by have := wrapDownFuel_step h; have := wrapDownFuel_pos h; omega)
      · rw [wrapDownIter, if_neg h, wrapDown, dif_neg h]

theorem wrapUpFuel_pos {q : ℚ} (h : q < -pi64) : 1 ≤ wrapUpFuel q := by
  have h2 : (0 : ℚ) < pi64 * 2 := by norm_num [pi64]
  have h1 : (0 : ℚ) < (-pi64 - q) / (pi64 * 2) := div_pos (by linarith) h2
  have := Int.ceil_pos.mpr h1
  show 1 ≤ (⌈(-pi64 - q) / (pi64 * 2)⌉).toNat
  omega

theorem wrapUpFuel_step {q : ℚ} (h : q < -pi64) :
    wrapUpFuel (q + pi64 * 2) = wrapUpFuel q - 1 := by
  have hne : (pi64 * 2 : ℚ) ≠ 0 := by norm_num [pi64]
  have he : (-pi64 - (q + pi64 * 2)) / (pi64 * 2) = (-pi64 - q) / (pi64 * 2) - 1 := by
    rw [show -pi64 - (q + pi64 * 2) = -pi64 - q - pi64 * 2 by ring, sub_div, div_self hne]
  have hc : ⌈(-pi64 - (q + pi64 * 2)) / (pi64 * 2)⌉ = ⌈(-pi64 - q) / (pi64 * 2)⌉ - 1 := by
    rw [he]
    exact_mod_cast Int.ceil_sub_int ((-pi64 - q) / (pi64 * 2)) 1
  show (⌈(-pi64 - (q + pi64 * 2)) / (pi64 * 2)⌉).toNat =
    (⌈(-pi64 - q) / (pi64 * 2)⌉).toNat - 1
  rw [hc]
  omega

theorem wrapUpIter_eq : ∀ n q, wrapUpFuel q ≤ n → wrapUpIter n q = wrapUp q := by
  intro n
  induction n with
  | zero =>
      intro q hq
      by_cases h : q < -pi64
      · exact absurd hq (by have := wrapUpFuel_pos h; omega)
      · rw [wrapUpIter, wrapUp, dif_neg h]
  | succ n ih =>
      intro q hq
      by_cases h : q < -pi64
      · rw [wrapUpIter, if_pos h, wrapUp, dif_pos h]
        exact ih _ (by have := wrapUpFuel_step h; have := wrapUpFuel_pos h; omega)
      · rw [wrapUpIter, if_neg h, wrapUp, dif_neg h]

/-- A crude but definitionally computing over-estimate of both loop
iteration counts (the exact counts involve `Int.ceil`, which does not
reduce in the kernel). -/
def wrapFuelBound (q : ℚ) : Nat := q.num.natAbs + 1

theorem abs_le_natAbs (q : ℚ) : |q| ≤ (q.num.natAbs : ℚ) := by
  have hden : (1 : ℚ) ≤ (q.den : ℚ) := by
    exact_mod_cast Nat.one_le_iff_ne_zero.mpr q.den_nz
  have hnum : (q.num.natAbs : ℚ) = |(q.num : ℚ)| := by
    rw [Int.cast_natAbs]
    exact Int.cast_abs
  calc |q| = |(q.num : ℚ) / (q.den : ℚ)| := by rw [Rat.num_div_den q]
    _ = |(q.num : ℚ)| / |(q.den : ℚ)| := abs_div _ _
    _ = |(q.num : ℚ)| / (q.den : ℚ) := by
        rw [abs_of_nonneg (by positivity : (0 : ℚ) ≤ (q.den : ℚ))]
    _ ≤ |(q.num : ℚ)| / 1 := by
        apply div_le_div_of_nonneg_left (abs_nonneg _) one_pos hden
    _ = |(q.num : ℚ)| := div_one _
    _ = (q.num.natAbs : ℚ) := hnum.symm

theorem wrapDownFuel_le (q : ℚ) : wrapDownFuel q ≤ wrapFuelBound q := by
  by_cases h : pi64 < q
  · have hpi : (3 : ℚ) < pi64 := by norm_num [pi64]
    have h2 : (0 : ℚ) < pi64 * 2 := by linarith
    have habs : q ≤ (q.num.natAbs : ℚ) :=
      le_trans (le_abs_self q) (abs_le_natAbs q)
    have hdivle : (q - pi64) / (pi64 * 2) ≤ q := by
      rw [div_le_iff₀ h2]
      nlinarith
    have hceil : ⌈(q - pi64) / (pi64 * 2)⌉ ≤ (q.num.natAbs : ℤ) := by
      have hcast : (q - pi64) / (pi64 * 2) ≤ ((q.num.natAbs : ℤ) : ℚ) := by
        rw [Int.cast_natCast]
        exact le_trans hdivle habs
      calc ⌈(q - pi64) / (pi64 * 2)⌉ ≤ ⌈((q.num.natAbs : ℤ) : ℚ)⌉ := Int.ceil_le_ceil hcast
        _ = (q.num.natAbs : ℤ) := Int.ceil_intCast _
    show (⌈(q - pi64) / (pi64 * 2)⌉).toNat ≤ q.num.natAbs + 1
    omega
  · rw [wrapDownFuel_zero h]
    exact Nat.zero_le _

theorem wrapUpFuel_le (q : ℚ) : wrapUpFuel q ≤ wrapFuelBound q := by
  by_cases h : q < -pi64
  · have hpi : (3 : ℚ) < pi64 := by norm_num [pi64]
    have h2 : (0 : ℚ) < pi64 * 2 := by linarith
    have habs : -q ≤ (q.num.natAbs : ℚ) :=
      le_trans (neg_le_abs q) (abs_le_natAbs q)
    have hdivle : (-pi64 - q) / (pi64 * 2) ≤ -q := by
      rw [div_le_iff₀ h2]
      nlinarith
    have hceil : ⌈(-pi64 - q) / (pi64 * 2)⌉ ≤ (q.num.natAbs : ℤ) := by
      have hcast : (-pi64 - q) / (pi64 * 2) ≤ ((q.num.natAbs : ℤ) : ℚ) := by
        rw [Int.cast_natCast]
        exact le_trans hdivle habs
      calc ⌈(-pi64 - q) / (pi64 * 2)⌉ ≤ ⌈((q.num.natAbs : ℤ) : ℚ)⌉ := Int.ceil_le_ceil hcast
        _ = (q.num.natAbs : ℤ) := Int.ceil_intCast _
    show (⌈(-pi64 - q) / (pi64 * 2)⌉).toNat ≤ q.num.natAbs + 1
    omega
  · have : wrapUpFuel q = 0 := by
      have h1 : (-pi64 - q) / (pi64 * 2) ≤ 0 := by
        apply div_nonpos_iff.mpr
        right
        constructor <;> [linarith [not_lt.mp h]; norm_num [pi64]]
      have : ⌈(-pi64 - q) / (pi64 * 2)⌉ ≤ 0 := Int.ceil_le.mpr (by exact_mod_cast h1)
      show (⌈(-pi64 - q) / (pi64 * 2)⌉).toNat = 0
      omega
    omega

/-- Kernel-computable `wrapDown`. -/
def wrapDownC (q : ℚ) : ℚ := wrapDownIter (wrapFuelBound q) q

/-- Kernel-computable `wrapUp`. -/
def wrapUpC (q : ℚ) : ℚ := wrapUpIter (wrapFuelBound q) q

theorem wrapDownC_eq (q : ℚ) : wrapDownC q = wrapDown q :=
  wrapDownIter_eq _ q (wrapDownFuel_le q)

theorem wrapUpC_eq (q : ℚ) : wrapUpC q = wrapUp q :=
  wrapUpIter_eq _ q (wrapUpFuel_le q)

/-- Kernel-computable `normalizeDir` on the finite fragment; equal to
`normalizeDirQ` by `normalizeDirQC_eq`.  This is the version the
interpreter model below uses. -/
def normalizeDirQC (q : ℚ) : ℚ := wrapUpC (wrapDownC q)

theorem normalizeDirQC_eq (q : ℚ) : normalizeDirQC q = normalizeDirQ q := by
  rw [normalizeDirQC, normalizeDirQ, wrapDownC_eq, wrapUpC_eq]

/-- Kernel-computable `normalizeDir` on the full float domain (see
`normalizeDir` for the treatment of non-finite inputs). -/
def normalizeDirC : GF → GF
  | GF.fin q => GF.fin (normalizeDirQC q)
  | x => x

theorem normalizeDirC_eq (d : GF) : normalizeDirC d = normalizeDir d := by
  cases d <;> simp [normalizeDirC, normalizeDir, normalizeDirQC_eq]

/-! ## Bullet kinematic state (`bulletModel`, runner.go) -/

/-- `bulletModel`: the kinematic state of one bullet.  Go zero-initializes
a fresh `bulletModel`, which the field defaults mirror. -/
structure bulletModel where
  x : GF := GF.fin 0
  y : GF := GF.fin 0
  speed : GF := GF.fin 0
  direction : GF := GF.fin 0
  accelSpeedHorizontal : GF := GF.fin 0
  accelSpeedVertical : GF := GF.fin 0
  vanished : Bool := false
deriving Repr, DecidableEq

/-- The runner environment: host callbacks and options (`NewRunnerOptions`,
modelled with constant host positions), the shared random source
(modelled as a stream indexed by a draw counter), and the Go `math`
library functions, which are parameters of the model. -/
structure Env where
  shootPos : GF × GF
  targetPos : GF × GF
  defaultBulletSpeed : GF
  rank : GF
  randSeq : Nat → GF
  sinF : GF → GF
  cosF : GF → GF
  atan2F : GF → GF → GF
  sqrtF : GF → GF

/-! ## Expression ASTs, the evaluator and the compiler -/

/-- Go binary/unary operator tokens as they reach `evaluateExpr` and
`compileAst`; `other` is any further operator, carrying its rendering
(`e.Op.String()`). -/
inductive GoOp where
  | add
  | sub
  | mul
  | quo
  | rem
  | other (s : String)
deriving Repr, DecidableEq

/-- Rendering of an operator, as used in error messages. -/
def GoOp.str : GoOp → String
  | .add => "+"
  | .sub => "-"
  | .mul => "*"
  | .quo => "/"
  | .rem => "%"
  | .other s => s

/-- `token.INT` / `token.FLOAT` basic-literal kinds; `otherLit` is any
other literal kind. -/
inductive GoLitKind where
  | intLit
  | floatLit
  | otherLit
deriving Repr, DecidableEq

/-- Model of the Go `ast.Expr` trees that `compileAst` receives from the
parser and that `evaluateExpr` receives from the compiler.
`number v` is the compiler's `numberValue` node; `basicLit` carries the
value `strconv.ParseFloat` yields for the literal's text (the parser only
produces parseable INT/FLOAT literals); `ident` carries the identifier
with its original `$` spelling (the `$`→`V_`→`$` renaming that
`compileExpr`/`compileAst` perform to satisfy the Go parser is modelled
away); `call` has `none` when the called expression is not a plain
identifier; `unsupported` is any other `ast` node kind. -/
inductive GoExpr where
  | number (v : GF)
  | binary (op : GoOp) (x y : GoExpr)
  | unary (op : GoOp) (x : GoExpr)
  | basicLit (kind : GoLitKind) (v : ℚ)
  | ident (name : String)
  | call (fn : Option String) (args : List GoExpr)
  | paren (x : GoExpr)
  | unsupported
deriving Repr

/-- Runtime parameter bindings (`parameters map[string]float64`); keys are
kept unique by `insertParam`. -/
abbrev Params := List (String × GF)

/-- Map lookup. -/
def lookupParam : Params → String → Option GF
  | [], _ => none
  | (k, v) :: rest, key => if k = key then some v else lookupParam rest key

/-- Map assignment `m[k] = v` (replaces an existing binding). -/
def insertParam : Params → String → GF → Params
  | [], key, v => [(key, v)]
  | (k, w) :: rest, key, v =>
      if k = key then (k, v) :: rest else (k, w) :: insertParam rest key v

/-- `evaluateExpr` (runner.go, current revision): evaluate a compiled
expression under parameter bindings, the owning runner's bullet (for
`$direction`/`$speed`) and the position `ridx` in the random stream.
Returns the value and the advanced random position.  Error messages that
embed a formatted subtree are abbreviated to their fixed prefix. -/
def evaluateExpr (env : Env) (e : GoExpr) (params : Params) (bullet : bulletModel)
    (ridx : Nat) : Outcome (GF × Nat) :=
  match e with
  | .number v => .ok (v, ridx)
  | .binary op x y => do
      let (xv, r1) ← evaluateExpr env x params bullet ridx
      let (yv, r2) ← evaluateExpr env y params bullet r1
      match op with
      | .add => .ok (GF.add xv yv, r2)
      | .sub => .ok (GF.sub xv yv, r2)
      | .mul => .ok (GF.mul xv yv, r2)
      | .quo => .ok (GF.div xv yv, r2)
      | .rem => do
          let v ← goRem xv yv
          .ok (v, r2)
      | op => .err ("Unsupported operator: " ++ op.str)
  | .unary op x => do
      let (xv, r1) ← evaluateExpr env x params bullet ridx
      match op with
      | .sub => .ok (GF.neg xv, r1)
      | op => .err ("Unsupported operator: " ++ op.str)
  | .ident name =>
      match name with
      | "$rand" => .ok (env.randSeq ridx, ridx + 1)
      | "$rank" => .ok (env.rank, ridx)
      | "$direction" =>
          if GF.feq bullet.accelSpeedHorizontal (GF.fin 0)
              && GF.feq bullet.accelSpeedVertical (GF.fin 0) then
            .ok (GF.add (GF.div (GF.mul bullet.direction (GF.fin 180)) (GF.fin pi64))
              (GF.fin 90), ridx)
          else
            let vx := GF.add (GF.mul bullet.speed (env.cosF bullet.direction))
              bullet.accelSpeedHorizontal
            let vy := GF.add (GF.mul bullet.speed (env.sinF bullet.direction))
              bullet.accelSpeedVertical
            .ok (GF.add (GF.div (GF.mul (env.atan2F vy vx) (GF.fin 180)) (GF.fin pi64))
              (GF.fin 90), ridx)
      | "$speed" =>
          if GF.feq bullet.accelSpeedHorizontal (GF.fin 0)
              && GF.feq bullet.accelSpeedVertical (GF.fin 0) then
            .ok (bullet.speed, ridx)
          else
            let vx := GF.add (GF.mul bullet.speed (env.cosF bullet.direction))
              bullet.accelSpeedHorizontal
            let vy := GF.add (GF.mul bullet.speed (env.sinF bullet.direction))
              bullet.accelSpeedVertical
            .ok (env.sqrtF (GF.add (GF.mul vx vx) (GF.mul vy vy)), ridx)
      | _ =>
          match lookupParam params name with
          | some v => .ok (v, ridx)
          | none => .err ("Invalid variable name: " ++ name)
  | .call fn args =>
      match fn with
      | none => .err "Unsupported function"
      | some f => do
          let (vs, r1) ← evaluateExpr.evalArgs env args params bullet ridx
          match f with
          | "sin" =>
              match vs with
              | [] => .err "Too few arguments for sin(): 0"
              | v :: _ =>
                  .ok (env.sinF (GF.div (GF.mul v (GF.fin pi64)) (GF.fin 180)), r1)
          | "cos" =>
              match vs with
              | [] => .err "Too few arguments for cos(): 0"
              | v :: _ =>
                  .ok (env.cosF (GF.div (GF.mul v (GF.fin pi64)) (GF.fin 180)), r1)
          | f => .err ("Unsupported function: " ++ f)
  | .paren x => evaluateExpr env x params bullet ridx
  | .basicLit _ _ => .err "Unsupported expression"
  | .unsupported => .err "Unsupported expression"
where
  /-- The argument loop of the `*ast.CallExpr` case. -/
  evalArgs (env : Env) (args : List GoExpr) (params : Params) (bullet : bulletModel)
      (ridx : Nat) : Outcome (List GF × Nat) :=
    match args with
    | [] => .ok ([], ridx)
    | a :: rest => do
        let (v, r1) ← evaluateExpr env a params bullet ridx
        let (vs, r2) ← evalArgs env rest params bullet r1
        .ok (v :: vs, r2)

/-- The folded numeric values of a compiled argument list (the `args`
slice that the `*ast.CallExpr` case of `compileAst` collects). -/
def collectNums : List GoExpr → List GF
  | [] => []
  | .number v :: rest => v :: collectNums rest
  | _ :: rest => collectNums rest

/-- `compileAst` (bulletml.go, current revision): fold constant subtrees
into `numberValue` nodes.  In the branches where Go returns the mutated
input node, the model returns the node rebuilt from the compiled
children; the only discrepancy is that Go's in-place mutation preserves
`paren` wrappers above a non-constant child, which the evaluator treats
transparently. -/
def compileAst (env : Env) (e : GoExpr) : Outcome GoExpr :=
  match e with
  | .binary op x y => do
      let xc ← compileAst env x
      let yc ← compileAst env y
      match xc, yc with
      | .number xv, .number yv =>
          match op with
          | .add => .ok (.number (GF.add xv yv))
          | .sub => .ok (.number (GF.sub xv yv))
          | .mul => .ok (.number (GF.mul xv yv))
          | .quo => .ok (.number (GF.div xv yv))
          | .rem => do
              let v ← goRem xv yv
              .ok (.number v)
          | op => .err ("Unsupported operator: " ++ op.str)
      | xc, yc => .ok (.binary op xc yc)
  | .unary op x => do
      let xc ← compileAst env x
      match xc with
      | .number xv =>
          match op with
          | .sub => .ok (.number (GF.neg xv))
          | op => .err ("Unsupported operator: " ++ op.str)
      | xc => .ok (.unary op xc)
  | .basicLit kind v =>
      match kind with
      | .intLit => .ok (.number (.fin v))
      | .floatLit => .ok (.number (.fin v))
      | .otherLit => .err "Unsupported literal"
  | .ident name => .ok (.ident name)
  | .call fn args =>
      match fn with
      | none => .err "Unsupported function"
      | some f => do
          let argsC ← compileAst.compileArgs env args
          let vals := collectNums argsC
          if vals.length = argsC.length then
            match f with
            | "sin" =>
                match vals with
                | [] => .err "Too few arguments for sin(): 0"
                | v :: _ =>
                    .ok (.number (env.sinF (GF.div (GF.mul v (GF.fin pi64)) (GF.fin 180))))
            | "cos" =>
                match vals with
                | [] => .err "Too few arguments for cos(): 0"
                | v :: _ =>
                    .ok (.number (env.cosF (GF.div (GF.mul v (GF.fin pi64)) (GF.fin 180))))
            | _ => .ok (.call (some f) argsC)
          else .ok (.call (some f) argsC)
  | .paren x => compileAst env x
  | .number _ => .err "Unsupported expression"
  | .unsupported => .err "Unsupported expression"
where
  /-- The argument loop of the `*ast.CallExpr` case (`e.Args[i] = a`). -/
  compileArgs (env : Env) (args : List GoExpr) : Outcome (List GoExpr) :=
    match args with
    | [] => .ok []
    | a :: rest => do
        let ac ← compileAst env a
        let restC ← compileArgs env rest
        .ok (ac :: restC)

/-- A concrete environment used to instantiate theorems: shooter at the
origin, target at `(0, 100)`, default bullet speed `2.0`, and arbitrary
concrete stand-ins for the random stream and the `math` library functions
(no theorem below depends on their values). -/
def demoEnv : Env where
  shootPos := (GF.fin 0, GF.fin 0)
  targetPos := (GF.fin 0, GF.fin 100)
  defaultBulletSpeed := GF.fin 2
  rank := GF.fin 0
  randSeq := fun _ => GF.fin 0
  sinF := fun _ => GF.fin 0
  cosF := fun _ => GF.fin 1
  atan2F := fun _ _ => GF.fin 0
  sqrtF := fun _ => GF.fin 0

/-! ## Claim C7: totality of division and remainder on a zero divisor -/

theorem loopSubF_ninf (n : Nat) : loopSubF n GF.ninf = some GF.ninf := by
  cases n <;> simp [loopSubF, GF.gt, GF.lt]

theorem loopSubF_nan (n : Nat) : loopSubF n GF.nan = some GF.nan := by
  cases n <;> simp [loopSubF, GF.gt, GF.lt]

theorem loopAddF_nan (n : Nat) : loopAddF n GF.nan = some GF.nan := by
  cases n <;> simp [loopAddF, GF.lt]

/-- **C7, as stated, is false for `%`**: evaluating `5 % 0` (a binary `%`
node whose right operand evaluates to zero) does not return normally —
it aborts with a Go runtime panic (`int64(5) % int64(0)` divides by
zero), modelled by the `crash` outcome. -/
theorem C7_counterexample :
    evaluateExpr demoEnv (.binary .rem (.number (.fin 5)) (.number (.fin 0))) [] {} 0 =
      Outcome.crash := by
  with_unfolding_all rfl

/-- **C7 (amended)**: evaluation of `/` with a zero right operand is total
and returns normally — the result is an infinity or NaN, never a finite
value — while `%` with a right operand that truncates to zero aborts
evaluation with a runtime panic whenever the left operand truncates into
the signed 64-bit range. -/
theorem C7_div_total_rem_panics (x : ℚ) :
    (∀ env params b ridx,
        evaluateExpr env (.binary .quo (.number (.fin x)) (.number (.fin 0))) params b ridx =
          .ok (GF.div (.fin x) (.fin 0), ridx) ∧
        (GF.div (.fin x) (.fin 0)).isFinite = false) ∧
    (∀ env params b ridx, -(2 ^ 63) ≤ truncQ x → truncQ x ≤ 2 ^ 63 - 1 →
        evaluateExpr env (.binary .rem (.number (.fin x)) (.number (.fin 0))) params b ridx =
          .crash) := by
  constructor
  · intro env params b ridx
    constructor
    · simp [evaluateExpr]
    · rcases lt_trichotomy x 0 with h | h | h
      · simp [GF.div, GF.isFinite, h, not_lt.mpr (le_of_lt h)]
      · subst h
        simp [GF.div, GF.isFinite]
      · simp [GF.div, GF.isFinite, h]
  · intro env params b ridx h1 h2
    have hb : (-9223372036854775808 : ℤ) ≤ truncQ x ∧
        truncQ x ≤ 9223372036854775807 := by
      norm_num at h1 h2
      exact ⟨h1, h2⟩
    have hx : toInt64 (GF.fin x) = some (truncQ x) := by
      simp [toInt64, hb.1, hb.2]
    have h0 : toInt64 (GF.fin 0) = some 0 := by
      simp [toInt64, truncQ]
    simp [evaluateExpr, goRem, hx, h0]

/-- Witness for `C7_div_total_rem_panics` at `x = 5`. -/
theorem C7_div_total_rem_panics_witness :
    evaluateExpr demoEnv (.binary .rem (.number (.fin 5)) (.number (.fin 0))) [] {} 1 =
      .crash :=
  (C7_div_total_rem_panics 5).2 demoEnv [] {} 1 (by with_unfolding_all decide)
    (by with_unfolding_all decide)

/-! ## Claim C10: termination and range of `normalizeDir`

The loop bodies `dir -= math.Pi * 2` / `dir += math.Pi * 2` are rounded
float64 operations (`math.Pi * 2` itself is exact, a scaling by 2), so
for this claim the loops are modelled with an explicit round-to-nearest
step: `fl64` rounds a rational to the nearest double (ties to even),
faithfully on the normal range, which covers every value the loop
bodies produce on double inputs.  Large finite inputs absorb the
subtraction — `fl64 (x - 2*pi) = x` once the spacing of doubles around
`x` exceeds 4*pi — so the loops diverge on finite inputs too. -/

/-- Round half to even on the integer grid. -/
def rhe (x : ℚ) : ℤ :=
  if x - ⌊x⌋ < 1/2 then ⌊x⌋
  else if (1/2 : ℚ) < x - ⌊x⌋ then ⌊x⌋ + 1
  else if ⌊x⌋ % 2 = 0 then ⌊x⌋ else ⌊x⌋ + 1

/-- Largest binary exponent, searching upward (call with `p = 2^e ≤ q`). -/
def expUp : Nat → ℤ → ℚ → ℚ → ℤ
  | 0, e, _, _ => e
  | n + 1, e, p, q => if q < p * 2 then e else expUp n (e + 1) (p * 2) q

/-- Binary exponent search downward (call with `q < p * 2 = 2^(e+1)`). -/
def expDown : Nat → ℤ → ℚ → ℚ → ℤ
  | 0, e, _, _ => e
  | n + 1, e, p, q => if p ≤ q then e else expDown n (e - 1) (p / 2) q

/-- The binade exponent of a positive rational (within double range). -/
def qexp (q : ℚ) : ℤ := if 1 ≤ q then expUp 1200 0 1 q else expDown 1200 0 1 q

/-- The spacing of doubles in the binade with exponent `e`. -/
def unitFor (e : ℤ) : ℚ :=
  if 52 ≤ e then ((2 ^ (e - 52).toNat : ℕ) : ℚ)
  else (((2 ^ (52 - e).toNat : ℕ) : ℚ))⁻¹

/-- Round a positive rational to the nearest multiple of its binade's
double spacing, ties to even. -/
def fl64Pos (q : ℚ) : ℚ :=
  (rhe (q / unitFor (qexp q)) : ℚ) * unitFor (qexp q)

/-- Round a rational to the nearest `float64` value (round to nearest,
ties to even); faithful on the normal range. -/
def fl64 (q : ℚ) : ℚ :=
  if q = 0 then 0 else if 0 < q then fl64Pos q else -(fl64Pos (-q))

/-- The float64-rounded loop body `dir -= math.Pi * 2`. -/
def stepDown64 (x : ℚ) : ℚ := fl64 (x - pi64 * 2)

/-- The float64-rounded loop body `dir += math.Pi * 2`. -/
def stepUp64 (x : ℚ) : ℚ := fl64 (x + pi64 * 2)

/-- The first `normalizeDir` loop with rounded float64 subtraction,
fuelled; `none` means the loop is still running after `n` iterations. -/
def loopSubFl : Nat → ℚ → Option ℚ
  | 0, x => if pi64 < x then none else some x
  | n + 1, x => if pi64 < x then loopSubFl n (stepDown64 x) else some x

/-- The second `normalizeDir` loop with rounded float64 addition. -/
def loopAddFl : Nat → ℚ → Option ℚ
  | 0, x => if x < -pi64 then none else some x
  | n + 1, x => if x < -pi64 then loopAddFl n (stepUp64 x) else some x

/-- `normalizeDir` on finite doubles, with rounded loop bodies. -/
def normalizeDirFl (n : Nat) (x : ℚ) : Option ℚ := (loopSubFl n x).bind (loopAddFl n)

/-- Float64 absorption: at `2^60` the doubles are 128 apart, so
subtracting `2*pi` rounds straight back to `2^60`. -/
theorem stepDown64_absorb : stepDown64 ((2 : ℚ) ^ 60) = 2 ^ 60 := by
  with_unfolding_all rfl

theorem pi64_lt_two_pow : pi64 < (2 : ℚ) ^ 60 := by norm_num [pi64]

theorem unitFor_pos (e : ℤ) : 0 < unitFor e := by
  unfold unitFor
  split
  · positivity
  · positivity

theorem rhe_nonneg (x : ℚ) (hx : 0 ≤ x) : 0 ≤ rhe x := by
  have hf : 0 ≤ ⌊x⌋ := Int.floor_nonneg.mpr hx
  unfold rhe
  split
  · exact hf
  · split
    · omega
    · split <;> omega

theorem rhe_le_int (x : ℚ) (M : ℤ) (h : x ≤ M) : rhe x ≤ M := by
  have hf : ⌊x⌋ ≤ M := by
    have := Int.floor_le_floor h
    simpa using this
  have hkey : ⌊x⌋ = M → x - ⌊x⌋ ≤ 0 := by
    intro hM
    rw [hM]
    have : x ≤ (M : ℚ) := h
    linarith
  unfold rhe
  split
  · exact hf
  · rename_i h1
    push_neg at h1
    have hlt : ⌊x⌋ < M := by
      rcases lt_or_eq_of_le hf with h2 | h2
      · exact h2
      · exfalso
        have := hkey h2
        linarith
    split
    · omega
    · split <;> omega

theorem expDown_le : ∀ (n : Nat) (e : ℤ) (p q : ℚ), expDown n e p q ≤ e := by
  intro n
  induction n with
  | zero => intro e p q; exact le_refl e
  | succ n ih =>
      intro e p q
      show (if p ≤ q then e else expDown n (e - 1) (p / 2) q) ≤ e
      split
      · exact le_refl e
      · have := ih (e - 1) (p / 2) q
        omega

theorem expUp_step (n : Nat) (e : ℤ) (p q : ℚ) :
    expUp (n + 1) e p q = if q < p * 2 then e else expUp n (e + 1) (p * 2) q := rfl

/-- Values up to `pi` live in a binade with exponent at most 1. -/
theorem qexp_le_one (q : ℚ) (hq : 0 < q) (h : q ≤ pi64) : qexp q ≤ 1 := by
  unfold qexp
  split
  · have h4 : q < 4 := lt_of_le_of_lt h (by norm_num [pi64])
    rw [show (1200 : Nat) = 1199 + 1 from rfl, expUp_step]
    split
    · norm_num
    · rw [show (1199 : Nat) = 1198 + 1 from rfl, expUp_step]
      split
      · norm_num
      · exfalso
        rename_i h2 h22
        push_neg at h22
        have : (1 : ℚ) * 2 * 2 = 4 := by norm_num
        linarith
  · have := expDown_le 1200 0 1 q
    omega

/-- Rounding never carries a positive value at or below `pi` past `pi`:
`pi` is itself a double, a multiple of every smaller binade's spacing. -/
theorem fl64Pos_le_pi64 (q : ℚ) (hq : 0 < q) (h : q ≤ pi64) : fl64Pos q ≤ pi64 := by
  have he : qexp q ≤ 1 := qexp_le_one q hq h
  have hne : ¬ (52 ≤ qexp q) := by omega
  have hk : 48 ≤ (52 - qexp q).toNat := by omega
  set k := (52 - qexp q).toNat with hkdef
  have hu : unitFor (qexp q) = (((2 ^ k : ℕ) : ℚ))⁻¹ := by
    unfold unitFor
    rw [if_neg hne]
  have hupos : (0 : ℚ) < ((2 ^ k : ℕ) : ℚ) := by positivity
  have h2k : ((2 ^ k : ℕ) : ℚ) = 2 ^ (k - 48) * 2 ^ 48 := by
    push_cast
    rw [← pow_add]
    congr 1
    omega
  set M : ℤ := 884279719003555 * 2 ^ (k - 48) with hMdef
  have hM2 : (M : ℚ) = pi64 * ((2 ^ k : ℕ) : ℚ) := by
    have hb : ((281474976710656 : ℚ)) = 2 ^ 48 := by norm_num
    rw [h2k, pi64, hb, hMdef]
    push_cast
    field_simp
    ring_nf
  have hMu : (M : ℚ) * (((2 ^ k : ℕ) : ℚ))⁻¹ = pi64 := by
    rw [hM2, mul_assoc, mul_inv_cancel₀ (ne_of_gt hupos), mul_one]
  unfold fl64Pos
  rw [hu]
  have hqM : q / (((2 ^ k : ℕ) : ℚ))⁻¹ ≤ (M : ℚ) := by
    rw [div_eq_mul_inv, inv_inv, hM2]
    exact mul_le_mul_of_nonneg_right h (le_of_lt hupos)
  have hrle : rhe (q / (((2 ^ k : ℕ) : ℚ))⁻¹) ≤ M := rhe_le_int _ M hqM
  calc (rhe (q / (((2 ^ k : ℕ) : ℚ))⁻¹) : ℚ) * (((2 ^ k : ℕ) : ℚ))⁻¹
      ≤ (M : ℚ) * (((2 ^ k : ℕ) : ℚ))⁻¹ := by
        apply mul_le_mul_of_nonneg_right _ (by positivity)
        exact_mod_cast hrle
    _ = pi64 := hMu

theorem fl64_le_pi64 (z : ℚ) (h : z ≤ pi64) : fl64 z ≤ pi64 := by
  unfold fl64
  split
  · exact le_of_lt pi64_pos
  · split
    · exact fl64Pos_le_pi64 z (by assumption) h
    · rename_i h0 hneg
      push_neg at hneg
      have hz : z < 0 := lt_of_le_of_ne hneg h0
      have hpos : 0 < -z := by linarith
      have hnn : 0 ≤ fl64Pos (-z) := by
        unfold fl64Pos
        apply mul_nonneg _ (le_of_lt (unitFor_pos _))
        have : (0 : ℚ) ≤ -z / unitFor (qexp (-z)) :=
          div_nonneg (le_of_lt hpos) (le_of_lt (unitFor_pos _))
        exact_mod_cast rhe_nonneg _ this
      have := pi64_pos
      linarith

/-- The first loop never progresses at `2^60`: divergence on a finite
input. -/
theorem loopSubFl_absorb : ∀ n, loopSubFl n ((2 : ℚ) ^ 60) = none := by
  intro n
  induction n with
  | zero =>
      show (if pi64 < (2 : ℚ) ^ 60 then none else some ((2 : ℚ) ^ 60)) = none
      rw [if_pos pi64_lt_two_pow]
  | succ n ih =>
      show (if pi64 < (2 : ℚ) ^ 60 then loopSubFl n (stepDown64 ((2 : ℚ) ^ 60))
        else some ((2 : ℚ) ^ 60)) = none
      rw [if_pos pi64_lt_two_pow, stepDown64_absorb, ih]

theorem normalizeDirFl_absorb (n : Nat) : normalizeDirFl n ((2 : ℚ) ^ 60) = none := by
  rw [normalizeDirFl, loopSubFl_absorb]
  rfl

theorem loopSubFl_le : ∀ (n : Nat) (x r : ℚ), loopSubFl n x = some r → r ≤ pi64 := by
  intro n
  induction n with
  | zero =>
      intro x r h
      unfold loopSubFl at h
      split at h
      · exact Option.noConfusion h
      · rename_i hg
        push_neg at hg
        cases h
        exact hg
  | succ n ih =>
      intro x r h
      unfold loopSubFl at h
      split at h
      · exact ih _ _ h
      · rename_i hg
        push_neg at hg
        cases h
        exact hg

theorem loopAddFl_ge : ∀ (n : Nat) (x r : ℚ), loopAddFl n x = some r → -pi64 ≤ r := by
  intro n
  induction n with
  | zero =>
      intro x r h
      unfold loopAddFl at h
      split at h
      · exact Option.noConfusion h
      · rename_i hg
        push_neg at hg
        cases h
        exact hg
  | succ n ih =>
      intro x r h
      unfold loopAddFl at h
      split at h
      · exact ih _ _ h
      · rename_i hg
        push_neg at hg
        cases h
        exact hg

theorem loopAddFl_le : ∀ (n : Nat) (x r : ℚ), x ≤ pi64 → loopAddFl n x = some r →
    r ≤ pi64 := by
  intro n
  induction n with
  | zero =>
      intro x r hx h
      unfold loopAddFl at h
      split at h
      · exact Option.noConfusion h
      · cases h
        exact hx
  | succ n ih =>
      intro x r hx h
      unfold loopAddFl at h
      split at h
      · rename_i hg
        refine ih _ _ ?_ h
        apply fl64_le_pi64
        have := pi64_pos
        linarith
      · cases h
        exact hx

/-- Whenever the rounded loops terminate, the result is in `[-pi, pi]`. -/
theorem normalizeDirFl_range (n : Nat) (x r : ℚ) (h : normalizeDirFl n x = some r) :
    -pi64 ≤ r ∧ r ≤ pi64 := by
  unfold normalizeDirFl at h
  cases hy : loopSubFl n x with
  | none => rw [hy] at h; exact Option.noConfusion h
  | some y =>
      rw [hy] at h
      simp only [Option.some_bind] at h
      exact ⟨loopAddFl_ge n y r h, loopAddFl_le n y r (loopSubFl_le n x y hy) h⟩

/-- **C10, as stated, is false in both directions**: `normalizeDir`
terminates on NaN, a non-finite input (both loop guards compare false,
zero iterations suffice), and it does *not* terminate on every finite
input — at `2^60` the float64 subtraction `dir -= math.Pi*2` is
absorbed, the loop body is the identity while the guard stays true. -/
theorem C10_counterexample :
    normalizeDirFuel 0 GF.nan = some GF.nan ∧ GF.nan.isFinite = false ∧
    stepDown64 ((2 : ℚ) ^ 60) = 2 ^ 60 ∧ pi64 < (2 : ℚ) ^ 60 ∧
    normalizeDirFl 5 ((2 : ℚ) ^ 60) = none := by
  refine ⟨rfl, rfl, stepDown64_absorb, pi64_lt_two_pow, by with_unfolding_all rfl⟩

/-- **C10 (amended)**: whenever `normalizeDir` terminates on a finite
input — with the loop bodies rounded as float64 does — the result lies
in the closed interval `[-pi, pi]`; the loops diverge on the two
infinities but also on large finite inputs (at `2^60` the subtraction
is absorbed, so the first loop never progresses); NaN exits both loops
immediately and is returned unchanged, so termination is not limited to
finite inputs either. -/
theorem C10_normalizeDir_behavior :
    (∀ n, loopSubFl n ((2 : ℚ) ^ 60) = none ∧
      normalizeDirFl n ((2 : ℚ) ^ 60) = none) ∧
    (∀ n x r, normalizeDirFl n x = some r → -pi64 ≤ r ∧ r ≤ pi64) ∧
    (∀ n, normalizeDirFuel n GF.inf = none ∧ normalizeDirFuel n GF.ninf = none) ∧
    (∀ n, normalizeDirFuel n GF.nan = some GF.nan) := by
  refine ⟨?_, ?_, ?_, ?_⟩
  · exact fun n => ⟨loopSubFl_absorb n, normalizeDirFl_absorb n⟩
  · exact normalizeDirFl_range
  · intro n
    constructor
    · simp [normalizeDirFuel, loopSubF_inf]
    · simp [normalizeDirFuel, loopSubF_ninf, loopAddF_ninf]
  · intro n
    simp [normalizeDirFuel, loopSubF_nan, loopAddF_nan]

/-- Witness for `C10_normalizeDir_behavior`: the range part at the
terminating input 0, the divergence part at `2^60`. -/
theorem C10_normalizeDir_behavior_witness :
    normalizeDirFl 1 0 = some 0 ∧ (-pi64 ≤ (0 : ℚ) ∧ (0 : ℚ) ≤ pi64) ∧
    loopSubFl 3 ((2 : ℚ) ^ 60) = none :=
  ⟨by with_unfolding_all rfl,
   C10_normalizeDir_behavior.2.1 1 0 0 (by with_unfolding_all rfl),
   (C10_normalizeDir_behavior.1 3).1⟩

/-! ## Claim C8: constant folding vs. runtime evaluation -/

/-- An expression subtree "consisting entirely of constants": literal
leaves (as produced by the parser), combined by the supported operators,
parentheses, and calls of named functions. -/
def constTree : GoExpr → Bool
  | .basicLit .intLit _ => true
  | .basicLit .floatLit _ => true
  | .binary _ x y => constTree x && constTree y
  | .unary _ x => constTree x
  | .paren x => constTree x
  | .call (some _) args => constArgs args
  | _ => false
where
  constArgs : List GoExpr → Bool
    | [] => true
    | a :: rest => constTree a && constArgs rest

/-- Replace every literal leaf by its parsed numeric value (the part of
compilation that the runtime evaluator cannot do itself: it has no case
for raw literals). -/
def foldLits : GoExpr → GoExpr
  | .basicLit .intLit v => .number (.fin v)
  | .basicLit .floatLit v => .number (.fin v)
  | .binary op x y => .binary op (foldLits x) (foldLits y)
  | .unary op x => .unary op (foldLits x)
  | .paren x => .paren (foldLits x)
  | .call fn args => .call fn (foldLitsArgs args)
  | e => e
where
  foldLitsArgs : List GoExpr → List GoExpr
    | [] => []
    | a :: rest => foldLits a :: foldLitsArgs rest

theorem collectNums_length_le : ∀ l : List GoExpr, (collectNums l).length ≤ l.length := by
  intro l
  induction l with
  | nil => simp [collectNums]
  | cons a rest ih => cases a <;> simp [collectNums] <;> omega

/-- If every compiled argument folded to a number, the evaluator returns
exactly those numbers without consuming randomness. -/
theorem evalArgs_of_all_numbers (env : Env) (params : Params) (b : bulletModel) :
    ∀ l : List GoExpr, (collectNums l).length = l.length →
      ∀ r, evaluateExpr.evalArgs env l params b r = .ok (collectNums l, r) := by
  intro l
  induction l with
  | nil => intro _ r; simp [evaluateExpr.evalArgs, collectNums]
  | cons a rest ih =>
      intro hlen r
      match a with
      | .number v =>
          simp only [collectNums, List.length_cons] at hlen
          simp [evaluateExpr.evalArgs, evaluateExpr, collectNums, ih (by omega) r]
      | .binary _ _ _ | .unary _ _ | .basicLit _ _ | .ident _ | .call _ _ | .paren _
      | .unsupported =>
          exfalso
          have := collectNums_length_le rest
          simp [collectNums] at hlen
          omega

/-- Pointwise evaluation agreement lifted through the compiler's argument
loop, given agreement for each argument. -/
theorem compileArgs_eval_eq (env : Env) (params : Params) (b : bulletModel) :
    ∀ args : List GoExpr,
      (∀ a ∈ args, ∀ c, compileAst env a = .ok c →
          ∀ r, evaluateExpr env c params b r = evaluateExpr env (foldLits a) params b r) →
      ∀ argsC, compileAst.compileArgs env args = .ok argsC →
        ∀ r, evaluateExpr.evalArgs env argsC params b r =
          evaluateExpr.evalArgs env (foldLits.foldLitsArgs args) params b r := by
  intro args
  induction args with
  | nil =>
      intro _ argsC hc r
      simp only [compileAst.compileArgs] at hc
      cases hc
      simp [foldLits.foldLitsArgs]
  | cons a rest ih =>
      intro hIH argsC hc r
      simp only [compileAst.compileArgs] at hc
      cases hca : compileAst env a with
      | ok ac =>
          rw [hca, Outcome.bind_ok] at hc
          cases hcr : compileAst.compileArgs env rest with
          | ok restC =>
              rw [hcr, Outcome.bind_ok] at hc
              cases hc
              have ha := hIH a (by simp) ac hca
              have hr := ih (fun x hx => hIH x (by simp [hx])) restC hcr
              simp only [foldLits.foldLitsArgs, evaluateExpr.evalArgs]
              simp only [ha, hr]
          | err m => rw [hcr] at hc; cases hc
          | crash => rw [hcr] at hc; cases hc
          | undef => rw [hcr] at hc; cases hc
      | err m => rw [hca] at hc; cases hc
      | crash => rw [hca] at hc; cases hc
      | undef => rw [hca] at hc; cases hc

theorem eval_binary_congr (env : Env) (params : Params) (b : bulletModel) (op : GoOp)
    {x1 y1 x2 y2 : GoExpr}
    (hx : ∀ r, evaluateExpr env x1 params b r = evaluateExpr env x2 params b r)
    (hy : ∀ r, evaluateExpr env y1 params b r = evaluateExpr env y2 params b r) :
    ∀ r, evaluateExpr env (.binary op x1 y1) params b r =
      evaluateExpr env (.binary op x2 y2) params b r := by
  intro r
  simp only [evaluateExpr]
  simp only [hx, hy]

theorem eval_unary_congr (env : Env) (params : Params) (b : bulletModel) (op : GoOp)
    {x1 x2 : GoExpr}
    (hx : ∀ r, evaluateExpr env x1 params b r = evaluateExpr env x2 params b r) :
    ∀ r, evaluateExpr env (.unary op x1) params b r =
      evaluateExpr env (.unary op x2) params b r := by
  intro r
  simp only [evaluateExpr]
  simp only [hx]

theorem eval_call_congr (env : Env) (params : Params) (b : bulletModel) (fn : Option String)
    {l1 l2 : List GoExpr}
    (h : ∀ r, evaluateExpr.evalArgs env l1 params b r = evaluateExpr.evalArgs env l2 params b r) :
    ∀ r, evaluateExpr env (.call fn l1) params b r =
      evaluateExpr env (.call fn l2) params b r := by
  intro r
  cases fn with
  | none => simp [evaluateExpr]
  | some f =>
      simp only [evaluateExpr]
      simp only [h]

theorem constArgs_mem {args : List GoExpr} (h : constTree.constArgs args = true) :
    ∀ a ∈ args, constTree a = true := by
  induction args with
  | nil => intro a ha; cases ha
  | cons x rest ih =>
      simp only [constTree.constArgs, Bool.and_eq_true] at h
      intro a ha
      rcases List.mem_cons.mp ha with rfl | ha
      · exact h.1
      · exact ih h.2 a ha

/-- Core of C8: if a constant subtree compiles successfully, evaluating
the compiled form agrees pointwise with evaluating the subtree with its
literal leaves folded. -/
theorem compileAst_eval_eq_aux :
    ∀ (N : Nat) (t : GoExpr), sizeOf t ≤ N → constTree t = true →
      ∀ (env : Env) (params : Params) (b : bulletModel) (c : GoExpr),
        compileAst env t = .ok c →
        ∀ r, evaluateExpr env c params b r = evaluateExpr env (foldLits t) params b r := by
  intro N
  induction N with
  | zero =>
      intro t ht
      exfalso
      cases t <;> simp at ht
  | succ N ih =>
    intro t ht hconst env params b c hc r
    match t with
    | .basicLit kind v =>
        cases kind
        · simp only [compileAst] at hc
          cases hc
          simp [foldLits]
        · simp only [compileAst] at hc
          cases hc
          simp [foldLits]
        · simp [constTree] at hconst
    | .binary op x y =>
        have hszx : sizeOf x ≤ N := by
          have := GoExpr.binary.sizeOf_spec op x y
          omega
        have hszy : sizeOf y ≤ N := by
          have := GoExpr.binary.sizeOf_spec op x y
          omega
        simp only [constTree, Bool.and_eq_true] at hconst
        simp only [compileAst] at hc
        cases hx : compileAst env x with
        | err m => rw [hx] at hc; simp at hc
        | crash => rw [hx] at hc; simp at hc
        | undef => rw [hx] at hc; simp at hc
        | ok xc =>
          rw [hx, Outcome.bind_ok] at hc
          cases hy : compileAst env y with
          | err m => rw [hy] at hc; simp at hc
          | crash => rw [hy] at hc; simp at hc
          | undef => rw [hy] at hc; simp at hc
          | ok yc =>
            rw [hy, Outcome.bind_ok] at hc
            have hEX : ∀ r, evaluateExpr env xc params b r =
                evaluateExpr env (foldLits x) params b r :=
              ih x hszx hconst.1 env params b xc hx
            have hEY : ∀ r, evaluateExpr env yc params b r =
                evaluateExpr env (foldLits y) params b r :=
              ih y hszy hconst.2 env params b yc hy
            show evaluateExpr env c params b r =
              evaluateExpr env (.binary op (foldLits x) (foldLits y)) params b r
            split at hc
            · -- both children folded to numbers
              rename_i xv yv
              have hEXok : ∀ r, evaluateExpr env (foldLits x) params b r = .ok (xv, r) := by
                intro r
                rw [← hEX r]
                simp [evaluateExpr]
              have hEYok : ∀ r, evaluateExpr env (foldLits y) params b r = .ok (yv, r) := by
                intro r
                rw [← hEY r]
                simp [evaluateExpr]
              split at hc
              · cases hc; simp [evaluateExpr, hEXok, hEYok]
              · cases hc; simp [evaluateExpr, hEXok, hEYok]
              · cases hc; simp [evaluateExpr, hEXok, hEYok]
              · cases hc; simp [evaluateExpr, hEXok, hEYok]
              · cases hg : goRem xv yv with
                | ok v =>
                    rw [hg, Outcome.bind_ok] at hc
                    cases hc
                    simp [evaluateExpr, hEXok, hEYok, hg]
                | err m => rw [hg] at hc; simp at hc
                | crash => rw [hg] at hc; simp at hc
                | undef => rw [hg] at hc; simp at hc
              · simp at hc
            · -- at least one child not folded: the node is kept
              cases hc
              exact eval_binary_congr env params b op hEX hEY r
    | .unary op x =>
        have hszx : sizeOf x ≤ N := by
          have := GoExpr.unary.sizeOf_spec op x
          omega
        simp only [constTree] at hconst
        simp only [compileAst] at hc
        cases hx : compileAst env x with
        | err m => rw [hx] at hc; simp at hc
        | crash => rw [hx] at hc; simp at hc
        | undef => rw [hx] at hc; simp at hc
        | ok xc =>
          rw [hx, Outcome.bind_ok] at hc
          have hEX : ∀ r, evaluateExpr env xc params b r =
              evaluateExpr env (foldLits x) params b r :=
            ih x hszx hconst env params b xc hx
          show evaluateExpr env c params b r =
            evaluateExpr env (.unary op (foldLits x)) params b r
          split at hc
          · -- the child folded to a number
            rename_i xv
            have hEXok : ∀ r, evaluateExpr env (foldLits x) params b r = .ok (xv, r) := by
              intro r
              rw [← hEX r]
              simp [evaluateExpr]
            split at hc
            · cases hc; simp [evaluateExpr, hEXok]
            · simp at hc
          · -- the child is not a number: the node is kept
            cases hc
            exact eval_unary_congr env params b op hEX r
    | .paren x =>
        have hszx : sizeOf x ≤ N := by
          have := GoExpr.paren.sizeOf_spec x
          omega
        simp only [constTree] at hconst
        simp only [compileAst] at hc
        have : evaluateExpr env (foldLits (GoExpr.paren x)) params b r =
            evaluateExpr env (foldLits x) params b r := by
          simp [foldLits, evaluateExpr]
        rw [this]
        exact ih x hszx hconst env params b c hc r
    | .call fn args =>
        match fn with
        | none => simp [constTree] at hconst
        | some f =>
          have hsargs : sizeOf args ≤ N := by
            have := GoExpr.call.sizeOf_spec (some f) args
            omega
          simp only [constTree] at hconst
          simp only [compileAst] at hc
          cases hargs : compileAst.compileArgs env args with
          | err m => rw [hargs] at hc; simp at hc
          | crash => rw [hargs] at hc; simp at hc
          | undef => rw [hargs] at hc; simp at hc
          | ok argsC =>
            rw [hargs, Outcome.bind_ok] at hc
            have hList : ∀ r, evaluateExpr.evalArgs env argsC params b r =
                evaluateExpr.evalArgs env (foldLits.foldLitsArgs args) params b r := by
              apply compileArgs_eval_eq env params b args _ argsC hargs
              intro a ha c2 hc2 r2
              have hsa : sizeOf a ≤ N := by
                have := List.sizeOf_lt_of_mem ha
                omega
              exact ih a hsa (constArgs_mem hconst a ha) env params b c2 hc2 r2
            show evaluateExpr env c params b r =
              evaluateExpr env (.call (some f) (foldLits.foldLitsArgs args)) params b r
            by_cases hlen : (collectNums argsC).length = argsC.length
            · rw [if_pos hlen] at hc
              have hAll : ∀ r, evaluateExpr.evalArgs env argsC params b r =
                  .ok (collectNums argsC, r) :=
                evalArgs_of_all_numbers env params b argsC hlen
              split at hc
              · -- f = "sin"
                cases hv : collectNums argsC with
                | nil => rw [hv] at hc; simp at hc
                | cons v vs =>
                    rw [hv] at hc
                    simp only at hc
                    cases hc
                    simp only [evaluateExpr]
                    rw [← hList r, hAll r, hv]
                    simp [evaluateExpr]
              · -- f = "cos"
                cases hv : collectNums argsC with
                | nil => rw [hv] at hc; simp at hc
                | cons v vs =>
                    rw [hv] at hc
                    simp only at hc
                    cases hc
                    simp only [evaluateExpr]
                    rw [← hList r, hAll r, hv]
                    simp [evaluateExpr]
              · -- any other function name: the call is kept
                cases hc
                exact eval_call_congr env params b (some f) hList r
            · rw [if_neg hlen] at hc
              cases hc
              exact eval_call_congr env params b (some f) hList r

/-- **C8, as stated, is false**: for the constant subtree consisting of
the single literal `2`, the compiler folds it to the numeric value `2`
and the folded form evaluates to `2`, but the runtime evaluator computes
no value at all for the unfolded subtree — it has no case for raw
literals and returns an "Unsupported expression" error — so the two are
not bit-for-bit identical values. -/
theorem C8_counterexample :
    compileAst demoEnv (.basicLit .intLit 2) = .ok (.number (.fin 2)) ∧
    evaluateExpr demoEnv (.number (.fin 2)) [] {} 0 = .ok (.fin 2, 0) ∧
    evaluateExpr demoEnv (.basicLit .intLit 2) [] {} 0 = .err "Unsupported expression" := by
  refine ⟨?_, ?_, ?_⟩ <;> with_unfolding_all rfl

/-- **C8 (amended)**: for every expression subtree consisting entirely of
constants (literals, the supported operators, parentheses and named
calls, including sin/cos on constant arguments, folded after the
degrees-to-radians conversion), if compilation succeeds then evaluating
the compiled form agrees exactly — outcome, value and random-stream
position — with running the runtime evaluator on the subtree with its
literal leaves replaced by their parsed numeric values; in particular a
subtree folded to the single numeric literal `v` evaluates to exactly
`v`.  (The runtime evaluator rejects raw literal leaves, which is what
refutes the claim's comparison against the fully unfolded subtree.) -/
theorem C8_constant_folding (env : Env) (t : GoExpr) (h : constTree t = true) :
    (∀ c, compileAst env t = .ok c → ∀ params b ridx,
        evaluateExpr env c params b ridx = evaluateExpr env (foldLits t) params b ridx) ∧
    (∀ v, compileAst env t = .ok (.number v) → ∀ params b ridx,
        evaluateExpr env (foldLits t) params b ridx = .ok (v, ridx)) := by
  constructor
  · intro c hc params b ridx
    exact compileAst_eval_eq_aux (sizeOf t) t le_rfl h env params b c hc ridx
  · intro v hc params b ridx
    rw [← compileAst_eval_eq_aux (sizeOf t) t le_rfl h env params b _ hc ridx]
    simp [evaluateExpr]

/-- Witness for `C8_constant_folding`: `1 + sin(30) * 2` is a constant
tree; compilation folds it and the folded value is exactly what the
evaluator computes on the literal-folded tree. -/
theorem C8_constant_folding_witness :
    evaluateExpr demoEnv
        (foldLits (.binary .add (.basicLit .intLit 1)
          (.binary .mul (.call (some "sin") [.basicLit .intLit 30]) (.basicLit .intLit 2))))
        [] {} 0 =
      .ok (GF.add (.fin 1)
        (GF.mul (demoEnv.sinF (GF.div (GF.mul (.fin 30) (.fin pi64)) (.fin 180))) (.fin 2)), 0) :=
  (C8_constant_folding demoEnv _ (by with_unfolding_all rfl)).2 _
    (by with_unfolding_all rfl) [] {} 0

/-! ## The document model and the `prepare` walk (bulletml.go)

The tagged tree decoded from XML.  Parent back-links (used only for error
message trails) and the raw `XMLName`/comment bookkeeping are omitted;
`type` attributes are plain strings so that invalid values are
representable; expression slots hold parsed Go ASTs (`GoExpr`), and
`prepare` replaces them by their compiled form. -/

/-- `Direction` node: `type` attribute and expression. -/
structure BDirection where
  dtype : String
  expr : GoExpr
deriving Repr

/-- `Speed` node. -/
structure BSpeed where
  stype : String
  expr : GoExpr
deriving Repr

/-- `Horizontal` node. -/
structure BHorizontal where
  htype : String
  expr : GoExpr
deriving Repr

/-- `Vertical` node. -/
structure BVertical where
  vtype : String
  expr : GoExpr
deriving Repr

/-- `Wait` node. -/
structure BWait where
  expr : GoExpr
deriving Repr

/-- `Term` node. -/
structure BTerm where
  expr : GoExpr
deriving Repr

/-- `Times` node. -/
structure BTimes where
  expr : GoExpr
deriving Repr

/-- `Param` node. -/
structure BParam where
  expr : GoExpr
deriving Repr

/-- Common shape of `BulletRef`, `ActionRef` and `FireRef`: a label and a
parameter list (the `refType` interface). -/
structure BRef where
  label : String
  params : List BParam
deriving Repr

/-- `ChangeSpeed` node (`Speed` and `Term` are pointers in Go; `none`
means the child element was absent). -/
structure BChangeSpeed where
  speed : Option BSpeed
  term : Option BTerm
deriving Repr

/-- `ChangeDirection` node. -/
structure BChangeDirection where
  direction : Option BDirection
  term : Option BTerm
deriving Repr

/-- `Accel` node. -/
structure BAccel where
  horizontal : Option BHorizontal
  vertical : Option BVertical
  term : Option BTerm
deriving Repr

mutual

/-- `Bullet` node. -/
inductive BBullet where
  | mk (label : String) (direction : Option BDirection) (speed : Option BSpeed)
      (actionOrRefs : List BActionOrRef)

/-- A child of `Bullet.ActionOrRefs`; `invalid` is any other decoded
element (rejected by `prepare`). -/
inductive BActionOrRef where
  | action (a : BAction)
  | ref (r : BRef)
  | invalid

/-- `Action` node. -/
inductive BAction where
  | mk (label : String) (commands : List BCommand)

/-- A command in `Action.Commands`; `cinvalid` is any other decoded
element (rejected by `prepare`). -/
inductive BCommand where
  | crepeat (r : BRepeat)
  | cfire (f : BFire)
  | cfireRef (r : BRef)
  | cchangeSpeed (c : BChangeSpeed)
  | cchangeDirection (c : BChangeDirection)
  | caccel (a : BAccel)
  | cwait (w : BWait)
  | cvanish
  | caction (a : BAction)
  | cactionRef (r : BRef)
  | cinvalid

/-- `Repeat` node. -/
inductive BRepeat where
  | mk (times : Option BTimes) (action : Option BAction) (actionRef : Option BRef)

/-- `Fire` node. -/
inductive BFire where
  | mk (label : String) (direction : Option BDirection) (speed : Option BSpeed)
      (bullet : Option BBullet) (bulletRef : Option BRef)

end

def BBullet.label : BBullet → String
  | .mk l _ _ _ => l

def BBullet.direction : BBullet → Option BDirection
  | .mk _ d _ _ => d

def BBullet.speed : BBullet → Option BSpeed
  | .mk _ _ s _ => s

def BBullet.actionOrRefs : BBullet → List BActionOrRef
  | .mk _ _ _ a => a

def BAction.label : BAction → String
  | .mk l _ => l

def BAction.commands : BAction → List BCommand
  | .mk _ c => c

def BRepeat.times : BRepeat → Option BTimes
  | .mk t _ _ => t

def BRepeat.action : BRepeat → Option BAction
  | .mk _ a _ => a

def BRepeat.actionRef : BRepeat → Option BRef
  | .mk _ _ r => r

def BFire.label : BFire → String
  | .mk l _ _ _ _ => l

def BFire.direction : BFire → Option BDirection
  | .mk _ d _ _ _ => d

def BFire.speed : BFire → Option BSpeed
  | .mk _ _ s _ _ => s

def BFire.bullet : BFire → Option BBullet
  | .mk _ _ _ b _ => b

def BFire.bulletRef : BFire → Option BRef
  | .mk _ _ _ _ r => r

/-- The `<bulletml>` root element. -/
structure BulletML where
  mltype : String
  bullets : List BBullet
  actions : List BAction
  fires : List BFire

/-- `compileExpr` (bulletml.go): the `$`→`V_` renaming and the Go parse
are modelled away (expressions are already parsed ASTs carrying their
original identifier spellings), leaving the `compileAst` pass. -/
def compileExpr (env : Env) (e : GoExpr) : Outcome GoExpr := compileAst env e

/-- `Direction.prepare`: default the `type` attribute to `aim`, reject
unknown values, compile the expression. -/
def BDirection.prepare (env : Env) (d : BDirection) : Outcome BDirection := do
  let ty := if d.dtype = "" then "aim" else d.dtype
  if ty = "aim" ∨ ty = "absolute" ∨ ty = "relative" ∨ ty = "sequence" then do
    let ce ← compileExpr env d.expr
    .ok ⟨ty, ce⟩
  else
    .err ("Invalid 'type' attribute value of <direction> element: " ++ ty)

/-- `Speed.prepare`: default `absolute`, reject unknown values, compile. -/
def BSpeed.prepare (env : Env) (s : BSpeed) : Outcome BSpeed := do
  let ty := if s.stype = "" then "absolute" else s.stype
  if ty = "absolute" ∨ ty = "relative" ∨ ty = "sequence" then do
    let ce ← compileExpr env s.expr
    .ok ⟨ty, ce⟩
  else
    .err ("Invalid 'type' attribute value of <speed> element: " ++ ty)

/-- `Horizontal.prepare`. -/
def BHorizontal.prepare (env : Env) (h : BHorizontal) : Outcome BHorizontal := do
  let ty := if h.htype = "" then "absolute" else h.htype
  if ty = "absolute" ∨ ty = "relative" ∨ ty = "sequence" then do
    let ce ← compileExpr env h.expr
    .ok ⟨ty, ce⟩
  else
    .err ("Invalid 'type' attribute value of <horizontal> element: " ++ ty)

/-- `Vertical.prepare`. -/
def BVertical.prepare (env : Env) (v : BVertical) : Outcome BVertical := do
  let ty := if v.vtype = "" then "absolute" else v.vtype
  if ty = "absolute" ∨ ty = "relative" ∨ ty = "sequence" then do
    let ce ← compileExpr env v.expr
    .ok ⟨ty, ce⟩
  else
    .err ("Invalid 'type' attribute value of <vertical> element: " ++ ty)

/-- `Wait.prepare`. -/
def BWait.prepare (env : Env) (w : BWait) : Outcome BWait := do
  let ce ← compileExpr env w.expr
  .ok ⟨ce⟩

/-- `Term.prepare`. -/
def BTerm.prepare (env : Env) (t : BTerm) : Outcome BTerm := do
  let ce ← compileExpr env t.expr
  .ok ⟨ce⟩

/-- `Times.prepare`. -/
def BTimes.prepare (env : Env) (t : BTimes) : Outcome BTimes := do
  let ce ← compileExpr env t.expr
  .ok ⟨ce⟩

/-- `Param.prepare`. -/
def BParam.prepare (env : Env) (p : BParam) : Outcome BParam := do
  let ce ← compileExpr env p.expr
  .ok ⟨ce⟩

/-- Preparation of an optional `Direction` child (`if d, exists := ...`). -/
def prepOptDirection (env : Env) : Option BDirection → Outcome (Option BDirection)
  | some d => do
      let x ← d.prepare env
      .ok (some x)
  | none => .ok none

/-- Preparation of an optional `Speed` child. -/
def prepOptSpeed (env : Env) : Option BSpeed → Outcome (Option BSpeed)
  | some s => do
      let x ← s.prepare env
      .ok (some x)
  | none => .ok none

/-- Parameter-list loop shared by the three `*Ref.prepare` methods. -/
def prepParamList (env : Env) : List BParam → Outcome (List BParam)
  | [] => .ok []
  | p :: rest => do
      let p2 ← p.prepare env
      let rest2 ← prepParamList env rest
      .ok (p2 :: rest2)

/-- `BulletRef.prepare`/`ActionRef.prepare`/`FireRef.prepare`: an empty
label is a load-time error; parameters are compiled. -/
def BRef.prepare (env : Env) (xmlName : String) (r : BRef) : Outcome BRef := do
  if r.label = "" then
    .err ("<" ++ xmlName ++ "> element requires label attribute")
  else do
    let ps ← prepParamList env r.params
    .ok ⟨r.label, ps⟩

/-- `ChangeSpeed.prepare`: `Speed` and `Term` are required children. -/
def BChangeSpeed.prepare (env : Env) (c : BChangeSpeed) : Outcome BChangeSpeed := do
  match c.speed with
  | none => .err "<speed> required in <changeSpeed>"
  | some s => do
      let s2 ← s.prepare env
      match c.term with
      | none => .err "<term> required in <changeSpeed>"
      | some t => do
          let t2 ← t.prepare env
          .ok ⟨some s2, some t2⟩

/-- `ChangeDirection.prepare`: `Direction` and `Term` are required. -/
def BChangeDirection.prepare (env : Env) (c : BChangeDirection) : Outcome BChangeDirection := do
  match c.direction with
  | none => .err "<direction> required in <changeDirection>"
  | some d => do
      let d2 ← d.prepare env
      match c.term with
      | none => .err "<term> required in <changeDirection>"
      | some t => do
          let t2 ← t.prepare env
          .ok ⟨some d2, some t2⟩

/-- `Accel.prepare`: optional axes, required `Term`. -/
def BAccel.prepare (env : Env) (a : BAccel) : Outcome BAccel := do
  let h2 ← match a.horizontal with
    | some h => do
        let x ← h.prepare env
        pure (some x)
    | none => pure none
  let v2 ← match a.vertical with
    | some v => do
        let x ← v.prepare env
        pure (some x)
    | none => pure none
  match a.term with
  | none => .err "<term> required in <accel>"
  | some t => do
      let t2 ← t.prepare env
      .ok ⟨h2, v2, some t2⟩

mutual

/-- `Bullet.prepare`. -/
def BBullet.prepare (env : Env) : BBullet → Outcome BBullet
  | .mk label dir spd aors => do
      let dir2 ← prepOptDirection env dir
      let spd2 ← prepOptSpeed env spd
      let aors2 ← prepAorList env aors
      .ok (.mk label dir2 spd2 aors2)

/-- The loop over `Bullet.ActionOrRefs`. -/
def prepAorList (env : Env) : List BActionOrRef → Outcome (List BActionOrRef)
  | [] => .ok []
  | a :: rest => do
      let a2 ← BActionOrRef.prepare env a
      let rest2 ← prepAorList env rest
      .ok (a2 :: rest2)

/-- One `Bullet` child: an inline action, an `actionRef`, or an invalid
element (load-time error). -/
def BActionOrRef.prepare (env : Env) : BActionOrRef → Outcome BActionOrRef
  | .action a => do
      let a2 ← BAction.prepare env a
      .ok (.action a2)
  | .ref r => do
      let r2 ← r.prepare env "actionRef"
      .ok (.ref r2)
  | .invalid => .err "Invalid child element of <bullet>: "

/-- `Action.prepare`. -/
def BAction.prepare (env : Env) : BAction → Outcome BAction
  | .mk label cmds => do
      let cmds2 ← prepCmdList env cmds
      .ok (.mk label cmds2)

/-- The loop over `Action.Commands`. -/
def prepCmdList (env : Env) : List BCommand → Outcome (List BCommand)
  | [] => .ok []
  | c :: rest => do
      let c2 ← BCommand.prepare env c
      let rest2 ← prepCmdList env rest
      .ok (c2 :: rest2)

/-- One command of an `Action` body. -/
def BCommand.prepare (env : Env) : BCommand → Outcome BCommand
  | .crepeat r => do
      let r2 ← BRepeat.prepare env r
      .ok (.crepeat r2)
  | .cfire f => do
      let f2 ← BFire.prepare env f
      .ok (.cfire f2)
  | .cfireRef r => do
      let r2 ← r.prepare env "fireRef"
      .ok (.cfireRef r2)
  | .cchangeSpeed c => do
      let c2 ← c.prepare env
      .ok (.cchangeSpeed c2)
  | .cchangeDirection c => do
      let c2 ← c.prepare env
      .ok (.cchangeDirection c2)
  | .caccel a => do
      let a2 ← a.prepare env
      .ok (.caccel a2)
  | .cwait w => do
      let w2 ← w.prepare env
      .ok (.cwait w2)
  | .cvanish => .ok .cvanish
  | .caction a => do
      let a2 ← BAction.prepare env a
      .ok (.caction a2)
  | .cactionRef r => do
      let r2 ← r.prepare env "actionRef"
      .ok (.cactionRef r2)
  | .cinvalid => .err "Invalid child element of <action>: "

/-- `Repeat.prepare`: a required `Times`, then exactly one of
`Action`/`ActionRef` — both present or both absent are load-time
errors. -/
def BRepeat.prepare (env : Env) : BRepeat → Outcome BRepeat
  | .mk times act ref => do
      match times with
      | none => .err "<times> required in <repeat>"
      | some t => do
          let t2 ← t.prepare env
          match act, ref with
          | some _, some _ => .err "Both <action> and <actionRef> exist in <repeat> element"
          | none, none => .err "Either <action> or <actionRef> required in <repeat> element"
          | some a, none => do
              let a2 ← BAction.prepare env a
              .ok (.mk (some t2) (some a2) none)
          | none, some r => do
              let r2 ← r.prepare env "actionRef"
              .ok (.mk (some t2) none (some r2))

/-- `Fire.prepare`: optional direction/speed, then exactly one of
`Bullet`/`BulletRef` — both present or both absent are load-time
errors. -/
def BFire.prepare (env : Env) : BFire → Outcome BFire
  | .mk label dir spd blt bref => do
      let dir2 ← prepOptDirection env dir
      let spd2 ← prepOptSpeed env spd
      match blt, bref with
      | some b2, some br => .err "Both <bullet> and <bulletRef> exist in <fire> element"
      | none, none => .err "Either <bullet> or <bulletRef> required in <fire> element"
      | some b2, none => do
          let b3 ← BBullet.prepare env b2
          .ok (.mk label dir2 spd2 (some b3) none)
      | none, some br => do
          let br2 ← br.prepare env "bulletRef"
          .ok (.mk label dir2 spd2 none (some br2))

end

/-- The loop over the root's `Bullets`. -/
def prepBulletList (env : Env) : List BBullet → Outcome (List BBullet)
  | [] => .ok []
  | b :: rest => do
      let b2 ← BBullet.prepare env b
      let rest2 ← prepBulletList env rest
      .ok (b2 :: rest2)

/-- The loop over the root's `Actions`. -/
def prepActionList (env : Env) : List BAction → Outcome (List BAction)
  | [] => .ok []
  | a :: rest => do
      let a2 ← BAction.prepare env a
      let rest2 ← prepActionList env rest
      .ok (a2 :: rest2)

/-- The loop over the root's `Fires`. -/
def prepFireList (env : Env) : List BFire → Outcome (List BFire)
  | [] => .ok []
  | f :: rest => do
      let f2 ← BFire.prepare env f
      let rest2 ← prepFireList env rest
      .ok (f2 :: rest2)

/-- `BulletML.prepare` / `prepareNodeTree`: default the root `type`
attribute, validate it, then walk bullets, actions and fires in order. -/
def prepareNodeTree (env : Env) (b : BulletML) : Outcome BulletML := do
  let ty := if b.mltype = "" then "none" else b.mltype
  if ty = "none" ∨ ty = "vertical" ∨ ty = "horizontal" then do
    let bs ← prepBulletList env b.bullets
    let as2 ← prepActionList env b.actions
    let fs ← prepFireList env b.fires
    .ok ⟨ty, bs, as2, fs⟩
  else
    .err ("Invalid 'type' attribute value of <bulletml> element: " ++ ty)

/-- Model of `Load` (bulletml.go, current revision): XML decoding is
external; `Load` performs no structural validation of the decoded tree
(in particular it does not call `prepareNodeTree` — `NewRunner` does),
so on any decoded document it returns the document unchanged. -/
def LoadModel (b : BulletML) : Outcome BulletML := .ok b

/-! ## Claim C5: the exactly-one invariants of `Fire` and `Repeat` -/

/-- Exactly one of two optional children is present.  Modelled from the
spec: "`Fire` has exactly one of `Bullet`/`BulletRef`; `Repeat` has
exactly one of `Action`/`ActionRef`." -/
def exactlyOne {α β : Type} : Option α → Option β → Bool
  | some _, none => true
  | none, some _ => true
  | _, _ => false

mutual

/-- Spec-side checker: every `Fire` below this bullet has exactly one of
`Bullet`/`BulletRef` and every `Repeat` exactly one of
`Action`/`ActionRef`.  Written from the spec's words, to be compared
with `prepare`. -/
def BBullet.exclOK : BBullet → Bool
  | .mk _ _ _ aors => aorListExclOK aors

def aorListExclOK : List BActionOrRef → Bool
  | [] => true
  | a :: rest => BActionOrRef.exclOK a && aorListExclOK rest

def BActionOrRef.exclOK : BActionOrRef → Bool
  | .action a => BAction.exclOK a
  | .ref _ => true
  | .invalid => true

def BAction.exclOK : BAction → Bool
  | .mk _ cmds => cmdListExclOK cmds

def cmdListExclOK : List BCommand → Bool
  | [] => true
  | c :: rest => BCommand.exclOK c && cmdListExclOK rest

def BCommand.exclOK : BCommand → Bool
  | .crepeat r => BRepeat.exclOK r
  | .cfire f => BFire.exclOK f
  | .caction a => BAction.exclOK a
  | _ => true

def BRepeat.exclOK : BRepeat → Bool
  | .mk _ act ref =>
      exactlyOne act ref &&
        (match act with
          | some a => BAction.exclOK a
          | none => true)

def BFire.exclOK : BFire → Bool
  | .mk _ _ _ blt bref =>
      exactlyOne blt bref &&
        (match blt with
          | some b => BBullet.exclOK b
          | none => true)

end

/-- The whole-document spec-side checker. -/
def BulletML.exclOK (b : BulletML) : Bool :=
  b.bullets.all BBullet.exclOK && b.actions.all BAction.exclOK && b.fires.all BFire.exclOK

/-- Core of C5, by strong induction on node size: a node that `prepare`
accepts satisfies the spec's mutual-exclusion conditions throughout. -/
theorem prepare_excl_aux (env : Env) : ∀ N : Nat,
    (∀ b : BBullet, sizeOf b ≤ N → ∀ b2, BBullet.prepare env b = .ok b2 →
      BBullet.exclOK b = true) ∧
    (∀ l : List BActionOrRef, sizeOf l ≤ N → ∀ l2, prepAorList env l = .ok l2 →
      aorListExclOK l = true) ∧
    (∀ a : BActionOrRef, sizeOf a ≤ N → ∀ a2, BActionOrRef.prepare env a = .ok a2 →
      BActionOrRef.exclOK a = true) ∧
    (∀ a : BAction, sizeOf a ≤ N → ∀ a2, BAction.prepare env a = .ok a2 →
      BAction.exclOK a = true) ∧
    (∀ l : List BCommand, sizeOf l ≤ N → ∀ l2, prepCmdList env l = .ok l2 →
      cmdListExclOK l = true) ∧
    (∀ c : BCommand, sizeOf c ≤ N → ∀ c2, BCommand.prepare env c = .ok c2 →
      BCommand.exclOK c = true) ∧
    (∀ r : BRepeat, sizeOf r ≤ N → ∀ r2, BRepeat.prepare env r = .ok r2 →
      BRepeat.exclOK r = true) ∧
    (∀ f : BFire, sizeOf f ≤ N → ∀ f2, BFire.prepare env f = .ok f2 →
      BFire.exclOK f = true) := by
  intro N
  induction N with
  | zero =>
      refine ⟨?_, ?_, ?_, ?_, ?_, ?_, ?_, ?_⟩ <;>
        (intro x hx; exfalso; cases x <;> simp at hx)
  | succ N ih =>
    obtain ⟨ihB, ihAL, ihAOR, ihA, ihCL, ihC, ihR, ihF⟩ := ih
    refine ⟨?_, ?_, ?_, ?_, ?_, ?_, ?_, ?_⟩
    · -- BBullet
      rintro ⟨label, dir, spd, aors⟩ hsz b2 h
      have hs : sizeOf aors ≤ N := by
        have := BBullet.mk.sizeOf_spec label dir spd aors
        omega
      simp only [BBullet.prepare] at h
      simp only [BBullet.exclOK]
      cases hd : prepOptDirection env dir with
      | ok dir2 =>
          rw [hd, Outcome.bind_ok] at h
          cases hsp : prepOptSpeed env spd with
          | ok spd2 =>
              rw [hsp, Outcome.bind_ok] at h
              cases ha : prepAorList env aors with
              | ok aors2 => exact ihAL aors hs aors2 ha
              | err m => rw [ha] at h; simp at h
              | crash => rw [ha] at h; simp at h
              | undef => rw [ha] at h; simp at h
          | err m => rw [hsp] at h; simp at h
          | crash => rw [hsp] at h; simp at h
          | undef => rw [hsp] at h; simp at h
      | err m => rw [hd] at h; simp at h
      | crash => rw [hd] at h; simp at h
      | undef => rw [hd] at h; simp at h
    · -- List BActionOrRef
      rintro (_ | ⟨a, rest⟩) hsz l2 h
      · simp [aorListExclOK]
      · have hs1 : sizeOf a ≤ N := by
          have := List.cons.sizeOf_spec a rest
          omega
        have hs2 : sizeOf rest ≤ N := by
          have := List.cons.sizeOf_spec a rest
          omega
        simp only [prepAorList] at h
        simp only [aorListExclOK, Bool.and_eq_true]
        cases ha : BActionOrRef.prepare env a with
        | ok a2 =>
            rw [ha, Outcome.bind_ok] at h
            cases hr : prepAorList env rest with
            | ok rest2 => exact ⟨ihAOR a hs1 a2 ha, ihAL rest hs2 rest2 hr⟩
            | err m => rw [hr] at h; simp at h
            | crash => rw [hr] at h; simp at h
            | undef => rw [hr] at h; simp at h
        | err m => rw [ha] at h; simp at h
        | crash => rw [ha] at h; simp at h
        | undef => rw [ha] at h; simp at h
    · -- BActionOrRef
      rintro (⟨a⟩ | ⟨r⟩ | _) hsz a2 h
      · have hs : sizeOf a ≤ N := by
          have := BActionOrRef.action.sizeOf_spec a
          omega
        simp only [BActionOrRef.prepare] at h
        simp only [BActionOrRef.exclOK]
        cases ha : BAction.prepare env a with
        | ok x => exact ihA a hs x ha
        | err m => rw [ha] at h; simp at h
        | crash => rw [ha] at h; simp at h
        | undef => rw [ha] at h; simp at h
      · simp [BActionOrRef.exclOK]
      · simp [BActionOrRef.prepare] at h
    · -- BAction
      rintro ⟨label, cmds⟩ hsz a2 h
      have hs : sizeOf cmds ≤ N := by
        have := BAction.mk.sizeOf_spec label cmds
        omega
      simp only [BAction.prepare] at h
      simp only [BAction.exclOK]
      cases hc : prepCmdList env cmds with
      | ok x => exact ihCL cmds hs x hc
      | err m => rw [hc] at h; simp at h
      | crash => rw [hc] at h; simp at h
      | undef => rw [hc] at h; simp at h
    · -- List BCommand
      rintro (_ | ⟨c, rest⟩) hsz l2 h
      · simp [cmdListExclOK]
      · have hs1 : sizeOf c ≤ N := by
          have := List.cons.sizeOf_spec c rest
          omega
        have hs2 : sizeOf rest ≤ N := by
          have := List.cons.sizeOf_spec c rest
          omega
        simp only [prepCmdList] at h
        simp only [cmdListExclOK, Bool.and_eq_true]
        cases hc : BCommand.prepare env c with
        | ok c2 =>
            rw [hc, Outcome.bind_ok] at h
            cases hr : prepCmdList env rest with
            | ok rest2 => exact ⟨ihC c hs1 c2 hc, ihCL rest hs2 rest2 hr⟩
            | err m => rw [hr] at h; simp at h
            | crash => rw [hr] at h; simp at h
            | undef => rw [hr] at h; simp at h
        | err m => rw [hc] at h; simp at h
        | crash => rw [hc] at h; simp at h
        | undef => rw [hc] at h; simp at h
    · -- BCommand
      intro c hsz c2 h
      cases c with
      | crepeat r =>
          have hs : sizeOf r ≤ N := by
            have := BCommand.crepeat.sizeOf_spec r
            omega
          simp only [BCommand.prepare] at h
          simp only [BCommand.exclOK]
          cases hr : BRepeat.prepare env r with
          | ok x => exact ihR r hs x hr
          | err m => rw [hr] at h; simp at h
          | crash => rw [hr] at h; simp at h
          | undef => rw [hr] at h; simp at h
      | cfire f =>
          have hs : sizeOf f ≤ N := by
            have := BCommand.cfire.sizeOf_spec f
            omega
          simp only [BCommand.prepare] at h
          simp only [BCommand.exclOK]
          cases hf : BFire.prepare env f with
          | ok x => exact ihF f hs x hf
          | err m => rw [hf] at h; simp at h
          | crash => rw [hf] at h; simp at h
          | undef => rw [hf] at h; simp at h
      | caction a =>
          have hs : sizeOf a ≤ N := by
            have := BCommand.caction.sizeOf_spec a
            omega
          simp only [BCommand.prepare] at h
          simp only [BCommand.exclOK]
          cases ha : BAction.prepare env a with
          | ok x => exact ihA a hs x ha
          | err m => rw [ha] at h; simp at h
          | crash => rw [ha] at h; simp at h
          | undef => rw [ha] at h; simp at h
      | cfireRef r => simp [BCommand.exclOK]
      | cchangeSpeed c => simp [BCommand.exclOK]
      | cchangeDirection c => simp [BCommand.exclOK]
      | caccel a => simp [BCommand.exclOK]
      | cwait w => simp [BCommand.exclOK]
      | cvanish => simp [BCommand.exclOK]
      | cactionRef r => simp [BCommand.exclOK]
      | cinvalid => simp [BCommand.prepare] at h
    · -- BRepeat
      intro r hsz r2 h
      obtain ⟨times, act, ref⟩ := r
      cases times with
      | none => simp [BRepeat.prepare] at h
      | some t =>
        cases act with
        | some a =>
          cases ref with
          | some r3 =>
              simp only [BRepeat.prepare] at h
              cases ht : BTimes.prepare env t with
              | ok t2 => rw [ht, Outcome.bind_ok] at h; simp at h
              | err m => rw [ht] at h; simp at h
              | crash => rw [ht] at h; simp at h
              | undef => rw [ht] at h; simp at h
          | none =>
            simp only [BRepeat.prepare] at h
            simp only [BRepeat.exclOK]
            rw [Bool.and_eq_true]
            have hs : sizeOf a ≤ N := by
              have := BRepeat.mk.sizeOf_spec (some t) (some a) (none : Option BRef)
              have := Option.some.sizeOf_spec a
              omega
            cases ht : BTimes.prepare env t with
            | ok t2 =>
                rw [ht, Outcome.bind_ok] at h
                cases ha : BAction.prepare env a with
                | ok a2 => exact ⟨rfl, ihA a hs a2 ha⟩
                | err m => rw [ha] at h; simp at h
                | crash => rw [ha] at h; simp at h
                | undef => rw [ha] at h; simp at h
            | err m => rw [ht] at h; simp at h
            | crash => rw [ht] at h; simp at h
            | undef => rw [ht] at h; simp at h
        | none =>
          cases ref with
          | some r3 =>
              simp only [BRepeat.exclOK]
              rw [Bool.and_eq_true]
              exact ⟨rfl, rfl⟩
          | none =>
              simp only [BRepeat.prepare] at h
              cases ht : BTimes.prepare env t with
              | ok t2 => rw [ht, Outcome.bind_ok] at h; simp at h
              | err m => rw [ht] at h; simp at h
              | crash => rw [ht] at h; simp at h
              | undef => rw [ht] at h; simp at h
    · -- BFire
      intro f hsz f2 h
      obtain ⟨label, dir, spd, blt, bref⟩ := f
      cases blt with
      | some b =>
        cases bref with
        | some br =>
            simp only [BFire.prepare] at h
            cases hd : prepOptDirection env dir with
            | ok dir2 =>
                rw [hd, Outcome.bind_ok] at h
                cases hsp : prepOptSpeed env spd with
                | ok spd2 => rw [hsp, Outcome.bind_ok] at h; simp at h
                | err m => rw [hsp] at h; simp at h
                | crash => rw [hsp] at h; simp at h
                | undef => rw [hsp] at h; simp at h
            | err m => rw [hd] at h; simp at h
            | crash => rw [hd] at h; simp at h
            | undef => rw [hd] at h; simp at h
        | none =>
            have hs : sizeOf b ≤ N := by
              have := BFire.mk.sizeOf_spec label dir spd (some b) (none : Option BRef)
              have := Option.some.sizeOf_spec b
              omega
            simp only [BFire.prepare] at h
            simp only [BFire.exclOK]
            rw [Bool.and_eq_true]
            cases hd : prepOptDirection env dir with
            | ok dir2 =>
                rw [hd, Outcome.bind_ok] at h
                cases hsp : prepOptSpeed env spd with
                | ok spd2 =>
                    rw [hsp, Outcome.bind_ok] at h
                    cases hb : BBullet.prepare env b with
                    | ok b3 => exact ⟨rfl, ihB b hs b3 hb⟩
                    | err m => rw [hb] at h; simp at h
                    | crash => rw [hb] at h; simp at h
                    | undef => rw [hb] at h; simp at h
                | err m => rw [hsp] at h; simp at h
                | crash => rw [hsp] at h; simp at h
                | undef => rw [hsp] at h; simp at h
            | err m => rw [hd] at h; simp at h
            | crash => rw [hd] at h; simp at h
            | undef => rw [hd] at h; simp at h
      | none =>
        cases bref with
        | some br =>
            simp only [BFire.exclOK]
            rw [Bool.and_eq_true]
            exact ⟨rfl, rfl⟩
        | none =>
            simp only [BFire.prepare] at h
            cases hd : prepOptDirection env dir with
            | ok dir2 =>
                rw [hd, Outcome.bind_ok] at h
                cases hsp : prepOptSpeed env spd with
                | ok spd2 => rw [hsp, Outcome.bind_ok] at h; simp at h
                | err m => rw [hsp] at h; simp at h
                | crash => rw [hsp] at h; simp at h
                | undef => rw [hsp] at h; simp at h
            | err m => rw [hd] at h; simp at h
            | crash => rw [hd] at h; simp at h
            | undef => rw [hd] at h; simp at h

/-! ## The runner and the per-tick interpreter (runner.go, current revision) -/

/-- Go map assignment `table[k] = v` on an association list. -/
def tableInsert {α : Type} : List (String × α) → String → α → List (String × α)
  | [], k, v => [(k, v)]
  | (k2, w) :: rest, k, v =>
      if k2 = k then (k2, v) :: rest else (k2, w) :: tableInsert rest k v

/-- Go map lookup `table[k]`. -/
def tableLookup {α : Type} : List (String × α) → String → Option α
  | [], _ => none
  | (k2, v) :: rest, k => if k2 = k then some v else tableLookup rest k

/-- The three definition tables of a runner. -/
structure DefTables where
  actionDefTable : List (String × BAction)
  fireDefTable : List (String × BFire)
  bulletDefTable : List (String × BBullet)

/-- `actionProcessFrame`: one stack entry. -/
structure actionProcessFrame where
  action : BAction
  actionIndex : Nat := 0
  repeatIndex : Int := 0
  params : Params := []

/-- `actionProcess`.  The `stack` is stored top-first (Go appends the new
top at the end of a slice; the model conses it at the head).  The field
defaults are the values `createActionProcess` sets. -/
structure actionProcess where
  ticks : Int := 0
  stack : List actionProcessFrame := []
  waitUntil : Int := -1
  changeSpeedUntil : Int := -1
  changeSpeedDelta : GF := GF.fin 0
  changeSpeedTarget : GF := GF.fin 0
  changeDirectionUntil : Int := -1
  changeDirectionDelta : GF := GF.fin 0
  changeDirectionTarget : GF := GF.fin 0
  accelUntil : Int := -1
  accelHorizontalDelta : GF := GF.fin 0
  accelHorizontalTarget : GF := GF.fin 0
  accelVerticalDelta : GF := GF.fin 0
  accelVerticalTarget : GF := GF.fin 0
  lastShoot : bulletModel := {}

/-- `runner`: the shared bullet, the process list and the (shared)
definition tables.  `isTop` records which `updateBulletPosition` closure
was installed: the top-level runner rewrites its bullet position from
the host's shoot position, a fired-bullet runner integrates
kinematics. -/
structure RunnerModel where
  bullet : bulletModel
  isTop : Bool
  actionProcesses : List actionProcess
  tables : DefTables

/-- `strings.HasPrefix(s, p)`. -/
def hasPrefixGo (s p : String) : Bool := p.data.isPrefixOf s.data

/-- The entry process `createActionProcess(&ac, nil)` builds for a
top-level action. -/
def mkEntryProc (a : BAction) : actionProcess :=
  { stack := [{ action := a }] }

/-- The action-table/entry-process construction loop of `NewRunner`:
every labeled action is added to the table; those whose label starts
with `top` additionally become an entry process. -/
def buildActionPhase : List BAction → List (String × BAction) → List actionProcess →
    List (String × BAction) × List actionProcess
  | [], t, procs => (t, procs)
  | a :: rest, t, procs =>
      if a.label = "" then buildActionPhase rest t procs
      else
        buildActionPhase rest (tableInsert t a.label a)
          (if hasPrefixGo a.label "top" then procs ++ [mkEntryProc a] else procs)

/-- The bullet-table loop of `NewRunner`. -/
def buildBulletDefs (l : List BBullet) : List (String × BBullet) :=
  l.foldl (fun t b => if b.label = "" then t else tableInsert t b.label b) []

/-- The fire-table loop of `NewRunner`. -/
def buildFireDefs (l : List BFire) : List (String × BFire) :=
  l.foldl (fun t f => if f.label = "" then t else tableInsert t f.label f) []

/-- The option normalization at the head of `NewRunner`:
`DefaultBulletSpeed == 0` becomes `1.0`. -/
def normOpts (env0 : Env) : Env :=
  { env0 with
    defaultBulletSpeed :=
      if GF.feq env0.defaultBulletSpeed (GF.fin 0) then GF.fin 1
      else env0.defaultBulletSpeed }

/-- `NewRunner`: normalize the options (`DefaultBulletSpeed == 0` becomes
`1.0`), run `prepareNodeTree`, build the three definition tables and the
entry processes, and position the synthetic top bullet at the host's
shoot position.  Returns the normalized environment with the runner. -/
def NewRunnerGo (env0 : Env) (b : BulletML) : Outcome (Env × RunnerModel) := do
  let env := normOpts env0
  let b2 ← prepareNodeTree env b
  let bulletDefs := buildBulletDefs b2.bullets
  let fireDefs := buildFireDefs b2.fires
  let (actionDefs, procs) := buildActionPhase b2.actions [] []
  .ok (env,
    { bullet := { speed := env.defaultBulletSpeed, x := env.shootPos.1, y := env.shootPos.2 }
      isTop := true
      actionProcesses := procs
      tables := ⟨actionDefs, fireDefs, bulletDefs⟩ })

/-- The parameter-evaluation loop of `lookUpDefTable`: evaluate each ref
param under the caller's parameters and bind the result to `$(i+1)`;
`i` is the 1-based position of the next param, `acc` the map built so
far. -/
def evalRefParams (env : Env) : List BParam → Params → bulletModel → Nat → Nat → Params →
    Outcome (Params × Nat)
  | [], _, _, ridx, _, acc => .ok (acc, ridx)
  | p :: rest, callerParams, rb, ridx, i, acc => do
      let (v, r1) ← evaluateExpr env p.expr callerParams rb ridx
      evalRefParams env rest callerParams rb r1 (i + 1)
        (insertParam acc ("$" ++ toString i) v)

/-- `lookUpDefTable` (runner.go): resolve a reference through a
definition table; an absent label is an error naming the ref, otherwise
the params are evaluated under the caller's parameters into a fresh
map. -/
def lookUpDefTable {α : Type} (xmlName : String) (table : List (String × α)) (r : BRef)
    (params : Params) (env : Env) (rb : bulletModel) (ridx : Nat) :
    Outcome (α × Params × Nat) :=
  match tableLookup table r.label with
  | none => .err ("<" ++ xmlName ++ " label=\"" ++ r.label ++ "\"> not found")
  | some t => do
      let (ps, r2) ← evalRefParams env r.params params rb ridx 1 []
      .ok (t, ps, r2)

/-- `runner.lookUpActionDefTable` applied to `coalesce(action, actionRef)`
(inline actions reuse the caller's parameters verbatim); `coalesce` of
two absent children yields a nil node whose method call panics
(unreachable after `prepare`). -/
def resolveAction (env : Env) (tables : DefTables) (act : Option BAction) (ref : Option BRef)
    (params : Params) (rb : bulletModel) (ridx : Nat) : Outcome (BAction × Params × Nat) :=
  match act with
  | some a => .ok (a, params, ridx)
  | none =>
      match ref with
      | some r => lookUpDefTable "actionRef" tables.actionDefTable r params env rb ridx
      | none => .crash

/-- `runner.lookUpBulletDefTable` applied to
`coalesce(fire.Bullet, fire.BulletRef)`. -/
def resolveBullet (env : Env) (tables : DefTables) (blt : Option BBullet) (ref : Option BRef)
    (params : Params) (rb : bulletModel) (ridx : Nat) : Outcome (BBullet × Params × Nat) :=
  match blt with
  | some b => .ok (b, params, ridx)
  | none =>
      match ref with
      | some r => lookUpDefTable "bulletRef" tables.bulletDefTable r params env rb ridx
      | none => .crash

/-- `runner.lookUpActionDefTable` on one child of `Bullet.ActionOrRefs`
(the default branch is the "Invalid type: %T" error, abbreviated to its
fixed prefix). -/
def resolveActionOrRef (env : Env) (tables : DefTables) (aor : BActionOrRef)
    (params : Params) (rb : bulletModel) (ridx : Nat) : Outcome (BAction × Params × Nat) :=
  match aor with
  | .action a => .ok (a, params, ridx)
  | .ref r => lookUpDefTable "actionRef" tables.actionDefTable r params env rb ridx
  | .invalid => .err "Invalid type: "

/-- The mutable surroundings of one frame update: the owning runner's
bullet, the process record (its `stack` field is managed by the drain
loop, not by the frame update), the random draw counter, and the log of
runners handed to `OnBulletFired`. -/
structure Mach where
  rbullet : bulletModel
  proc : actionProcess
  randIdx : Nat
  fired : List RunnerModel

/-- Result of `actionProcessFrame.update`: `ret` is Go's `return nil`
(a frame was pushed), `wait`/`frameEnd` the two sentinel errors, `err` a
real error, plus the `crash`/`undef` outcomes. -/
inductive FrameRes where
  | ret (fr : actionProcessFrame) (pushed : Option actionProcessFrame) (m : Mach)
  | wait (fr : actionProcessFrame) (m : Mach)
  | frameEnd (m : Mach)
  | err (msg : String)
  | crash
  | undef

/-- The loop over the three push targets of the `Fire` case: resolve each
child of `bullet.ActionOrRefs` (the list is supplied already reversed,
mirroring Go's backward loop) and push a frame for it. -/
def pushBulletActions (env : Env) (tables : DefTables) :
    List BActionOrRef → Params → bulletModel → Nat → List actionProcessFrame →
    Outcome (List actionProcessFrame × Nat)
  | [], _, _, ridx, stack => .ok (stack, ridx)
  | aor :: rest, params, rb, ridx, stack => do
      let (action, actionParams, r2) ← resolveActionOrRef env tables aor params rb ridx
      pushBulletActions env tables rest params rb r2
        ({ action := action, params := actionParams } :: stack)

/-- The `Fire`/`FireRef` case of `actionProcessFrame.update`: resolve
the bullet, compute direction and speed, build the new bullet runner
with its single process, record the `OnBulletFired` call and snapshot
`lastShoot`.  Returns the machine state with which the command loop
continues. -/
def fireBody (env : Env) (tables : DefTables) (m : Mach)
    (fire : BFire) (fireParams : Params) (r1 : Nat) : Outcome Mach :=
  match resolveBullet env tables fire.bullet fire.bulletRef fireParams m.rbullet r1 with
  | .err e => .err e
  | .crash => .crash
  | .undef => .undef
  | .ok (bullet, params, r2) =>
    let bulletParams := params
    let sx := m.rbullet.x
    let sy := m.rbullet.y
    let tx := env.targetPos.1
    let ty := env.targetPos.2
    let dres : Outcome (Option BDirection × GF × Nat) :=
      match fire.direction with
      | some d => do
          let (v, r3) ← evaluateExpr env d.expr fireParams m.rbullet r2
          .ok (some d, v, r3)
      | none =>
          match bullet.direction with
          | some d => do
              let (v, r3) ← evaluateExpr env d.expr bulletParams m.rbullet r2
              .ok (some d, v, r3)
          | none => .ok (none, GF.fin 0, r2)
    match dres with
    | .err e => .err e
    | .crash => .crash
    | .undef => .undef
    | .ok (dsel, dirv, r3) =>
      let dirRes : Outcome GF :=
        match dsel with
        | some d =>
            let dir1 := GF.div (GF.mul dirv (GF.fin pi64)) (GF.fin 180)
            if d.dtype = "aim" then
              .ok (GF.add dir1 (env.atan2F (GF.sub ty sy) (GF.sub tx sx)))
            else if d.dtype = "absolute" then
              .ok (GF.sub dir1 (GF.div (GF.fin pi64) (GF.fin 2)))
            else if d.dtype = "relative" then
              .ok (GF.add dir1 m.rbullet.direction)
            else if d.dtype = "sequence" then
              .ok (GF.add dir1 m.proc.lastShoot.direction)
            else
              .err ("Invalid type '" ++ d.dtype ++ "' for <direction> element")
        | none => .ok (env.atan2F (GF.sub ty sy) (GF.sub tx sx))
      match dirRes with
      | .err e => .err e
      | .crash => .crash
      | .undef => .undef
      | .ok dir =>
        let sres : Outcome (Option BSpeed × GF × Nat) :=
          match fire.speed with
          | some s => do
              let (v, r4) ← evaluateExpr env s.expr fireParams m.rbullet r3
              .ok (some s, v, r4)
          | none =>
              match bullet.speed with
              | some s => do
                  let (v, r4) ← evaluateExpr env s.expr bulletParams m.rbullet r3
                  .ok (some s, v, r4)
              | none => .ok (none, GF.fin 0, r3)
        match sres with
        | .err e => .err e
        | .crash => .crash
        | .undef => .undef
        | .ok (ssel, sv, r4) =>
          let speedRes : Outcome GF :=
            match ssel with
            | some s =>
                if s.stype = "absolute" then .ok sv
                else if s.stype = "relative" then .ok (GF.add sv m.rbullet.speed)
                else if s.stype = "sequence" then .ok (GF.add sv m.proc.lastShoot.speed)
                else .err ("Invalid type '" ++ s.stype ++ "' for <speed> element")
            | none => .ok env.defaultBulletSpeed
          match speedRes with
          | .err e => .err e
          | .crash => .crash
          | .undef => .undef
          | .ok speed =>
            let newBullet : bulletModel :=
              { x := sx, y := sy, speed := speed, direction := dir }
            match pushBulletActions env tables bullet.actionOrRefs.reverse params
                m.rbullet r4 [] with
            | .err e => .err e
            | .crash => .crash
            | .undef => .undef
            | .ok (stack, r5) =>
              let bulletRunner : RunnerModel :=
                { bullet := newBullet
                  isTop := false
                  actionProcesses := [{ stack := stack }]
                  tables := tables }
              .ok { m with randIdx := r5
                           fired := m.fired ++ [bulletRunner]
                           proc := { m.proc with lastShoot := newBullet } }

/-- The body of `actionProcessFrame.update`: the `for` loop over the
commands of the frame's action, one fuel unit per iteration (the fuel is
the number of remaining commands, so it never runs out).  The Go type
switch has no default case, so an unknown command (`cinvalid`) is
silently skipped.  An error return discards the state: Go leaves
partially applied mutations behind (e.g. `accelUntil` is assigned before
the axis expressions are evaluated), but an errored runner's further
behaviour is not modelled. -/
def frameStep (env : Env) (tables : DefTables) : Nat → actionProcessFrame → Mach → FrameRes
  | 0, _, m => .frameEnd m
  | fuel + 1, fr, m =>
    match fr.action.commands[fr.actionIndex]? with
    | none => .frameEnd m
    | some cmd =>
      match cmd with
      | .crepeat c =>
          match c.times with
          | none => .crash
          | some tms =>
            match evaluateExpr env tms.expr fr.params m.rbullet m.randIdx with
            | .err e => .err e
            | .crash => .crash
            | .undef => .undef
            | .ok (rpt, r1) =>
              match resolveAction env tables c.action c.actionRef fr.params m.rbullet r1 with
              | .err e => .err e
              | .crash => .crash
              | .undef => .undef
              | .ok (action, params, r2) =>
                match toInt64 rpt with
                | none => .undef
                | some rptI =>
                  if fr.repeatIndex < rptI then
                    .ret { fr with repeatIndex := fr.repeatIndex + 1 }
                      (some { action := action
                              params := insertParam params "$loop.index"
                                (GF.fin (fr.repeatIndex : ℚ)) })
                      { m with randIdx := r2 }
                  else
                    frameStep env tables fuel
                      { fr with repeatIndex := 0, actionIndex := fr.actionIndex + 1 }
                      { m with randIdx := r2 }
      | .cfire f =>
          match fireBody env tables m f fr.params m.randIdx with
          | .err e => .err e
          | .crash => .crash
          | .undef => .undef
          | .ok m2 =>
              frameStep env tables fuel { fr with actionIndex := fr.actionIndex + 1 } m2
      | .cfireRef r =>
          match lookUpDefTable "fireRef" tables.fireDefTable r fr.params env m.rbullet
              m.randIdx with
          | .err e => .err e
          | .crash => .crash
          | .undef => .undef
          | .ok (fire, params, r1) =>
              match fireBody env tables m fire params r1 with
              | .err e => .err e
              | .crash => .crash
              | .undef => .undef
              | .ok m2 =>
                  frameStep env tables fuel { fr with actionIndex := fr.actionIndex + 1 } m2
      | .cchangeSpeed c =>
          match c.term with
          | none => .crash
          | some tm =>
            match evaluateExpr env tm.expr fr.params m.rbullet m.randIdx with
            | .err e => .err e
            | .crash => .crash
            | .undef => .undef
            | .ok (term, r1) =>
              match c.speed with
              | none => .crash
              | some sp =>
                match evaluateExpr env sp.expr fr.params m.rbullet r1 with
                | .err e => .err e
                | .crash => .crash
                | .undef => .undef
                | .ok (speed0, r2) =>
                  let next := fun (delta target : GF) =>
                    match toInt64 term with
                    | none => FrameRes.undef
                    | some termI =>
                        frameStep env tables fuel
                          { fr with actionIndex := fr.actionIndex + 1 }
                          { m with randIdx := r2
                                   proc := { m.proc with
                                     changeSpeedDelta := delta
                                     changeSpeedTarget := target
                                     changeSpeedUntil := m.proc.ticks + termI } }
                  if sp.stype = "absolute" ∨ sp.stype = "relative" then
                    let speed := if sp.stype = "relative"
                      then GF.add speed0 m.rbullet.speed else speed0
                    next (GF.div (GF.sub speed m.rbullet.speed) term) speed
                  else if sp.stype = "sequence" then
                    next speed0 (GF.add (GF.mul speed0 term) m.rbullet.speed)
                  else
                    .err ("Invalid type '" ++ sp.stype ++ "' for <speed> element")
      | .cchangeDirection c =>
          match c.term with
          | none => .crash
          | some tm =>
            match evaluateExpr env tm.expr fr.params m.rbullet m.randIdx with
            | .err e => .err e
            | .crash => .crash
            | .undef => .undef
            | .ok (term, r1) =>
              match c.direction with
              | none => .crash
              | some d =>
                match evaluateExpr env d.expr fr.params m.rbullet r1 with
                | .err e => .err e
                | .crash => .crash
                | .undef => .undef
                | .ok (dir0, r2) =>
                  let dir1 := GF.div (GF.mul dir0 (GF.fin pi64)) (GF.fin 180)
                  let next := fun (delta target : GF) =>
                    match toInt64 term with
                    | none => FrameRes.undef
                    | some termI =>
                        frameStep env tables fuel
                          { fr with actionIndex := fr.actionIndex + 1 }
                          { m with randIdx := r2
                                   proc := { m.proc with
                                     changeDirectionDelta := delta
                                     changeDirectionTarget := target
                                     changeDirectionUntil := m.proc.ticks + termI } }
                  if d.dtype = "absolute" ∨ d.dtype = "aim" ∨ d.dtype = "relative" then
                    let dir2 :=
                      if d.dtype = "absolute" then
                        GF.sub dir1 (GF.div (GF.fin pi64) (GF.fin 2))
                      else if d.dtype = "aim" then
                        GF.add dir1 (env.atan2F (GF.sub env.targetPos.2 m.rbullet.y)
                          (GF.sub env.targetPos.1 m.rbullet.x))
                      else
                        GF.add dir1 m.rbullet.direction
                    next (GF.div (normalizeDirC (GF.sub dir2 m.rbullet.direction)) term)
                      (normalizeDirC dir2)
                  else if d.dtype = "sequence" then
                    next (normalizeDirC dir1)
                      (normalizeDirC (GF.add (GF.mul dir1 term) m.rbullet.direction))
                  else
                    .err ("Invalid type '" ++ d.dtype ++ "' for <direction> element")
      | .caccel a =>
          match a.term with
          | none => .crash
          | some tm =>
            match evaluateExpr env tm.expr fr.params m.rbullet m.randIdx with
            | .err e => .err e
            | .crash => .crash
            | .undef => .undef
            | .ok (term, r1) =>
              match toInt64 term with
              | none => .undef
              | some termI =>
                let p1 := { m.proc with accelUntil := m.proc.ticks + termI }
                let hres : Outcome ((GF × GF) × Nat) :=
                  match a.horizontal with
                  | none => .ok ((GF.fin 0, m.rbullet.accelSpeedHorizontal), r1)
                  | some hz =>
                      match evaluateExpr env hz.expr fr.params m.rbullet r1 with
                      | .err e => .err e
                      | .crash => .crash
                      | .undef => .undef
                      | .ok (h0, r2) =>
                          if hz.htype = "absolute" ∨ hz.htype = "relative" then
                            let h1 := if hz.htype = "relative"
                              then GF.add h0 m.rbullet.accelSpeedHorizontal else h0
                            .ok ((GF.div (GF.sub h1 m.rbullet.accelSpeedHorizontal) term,
                              h1), r2)
                          else if hz.htype = "sequence" then
                            .ok ((h0, GF.add m.rbullet.accelSpeedHorizontal
                              (GF.mul h0 term)), r2)
                          else
                            .err ("Invalid type '" ++ hz.htype ++ "' for <horizontal> element")
                match hres with
                | .err e => .err e
                | .crash => .crash
                | .undef => .undef
                | .ok ((hd, ht), r2) =>
                  let vres : Outcome ((GF × GF) × Nat) :=
                    match a.vertical with
                    | none => .ok ((GF.fin 0, m.rbullet.accelSpeedVertical), r2)
                    | some vt =>
                        match evaluateExpr env vt.expr fr.params m.rbullet r2 with
                        | .err e => .err e
                        | .crash => .crash
                        | .undef => .undef
                        | .ok (v0, r3) =>
                            if vt.vtype = "absolute" ∨ vt.vtype = "relative" then
                              let v1 := if vt.vtype = "relative"
                                then GF.add v0 m.rbullet.accelSpeedVertical else v0
                              .ok ((GF.div (GF.sub v1 m.rbullet.accelSpeedVertical) term,
                                v1), r3)
                            else if vt.vtype = "sequence" then
                              .ok ((v0, GF.add m.rbullet.accelSpeedVertical
                                (GF.mul v0 term)), r3)
                            else
                              .err ("Invalid type '" ++ vt.vtype ++ "' for <vertical> element")
                  match vres with
                  | .err e => .err e
                  | .crash => .crash
                  | .undef => .undef
                  | .ok ((vd, vtg), r3) =>
                      frameStep env tables fuel
                        { fr with actionIndex := fr.actionIndex + 1 }
                        { m with randIdx := r3
                                 proc := { p1 with
                                   accelHorizontalDelta := hd
                                   accelHorizontalTarget := ht
                                   accelVerticalDelta := vd
                                   accelVerticalTarget := vtg } }
      | .cwait w =>
          match evaluateExpr env w.expr fr.params m.rbullet m.randIdx with
          | .err e => .err e
          | .crash => .crash
          | .undef => .undef
          | .ok (waitv, r1) =>
            match toInt64 waitv with
            | none => .undef
            | some waitI =>
                .wait { fr with actionIndex := fr.actionIndex + 1 }
                  { m with randIdx := r1
                           proc := { m.proc with waitUntil := m.proc.ticks + waitI } }
      | .cvanish =>
          frameStep env tables fuel { fr with actionIndex := fr.actionIndex + 1 }
            { m with rbullet := { m.rbullet with vanished := true } }
      | .caction a =>
          .ret { fr with actionIndex := fr.actionIndex + 1 }
            (some { action := a, params := fr.params }) m
      | .cactionRef r =>
          match lookUpDefTable "actionRef" tables.actionDefTable r fr.params env m.rbullet
              m.randIdx with
          | .err e => .err e
          | .crash => .crash
          | .undef => .undef
          | .ok (action, params, r1) =>
              .ret { fr with actionIndex := fr.actionIndex + 1 }
                (some { action := action, params := params })
                { m with randIdx := r1 }
      | .cinvalid =>
          frameStep env tables fuel { fr with actionIndex := fr.actionIndex + 1 } m

/-- `actionProcessFrame.update`: run the command loop starting at the
frame's cursor, with exactly the remaining commands as fuel. -/
def actionProcessFrame.update (env : Env) (tables : DefTables) (fr : actionProcessFrame)
    (m : Mach) : FrameRes :=
  frameStep env tables (fr.action.commands.length - fr.actionIndex) fr m

/-- Result of the frame drain loop. -/
inductive DrainRes where
  | done (stack : List actionProcessFrame) (m : Mach)
  | err (msg : String)
  | crash
  | undef
  | fuelOut

/-- The drain loop of `actionProcess.update`: run the top frame until the
stack empties or a frame signals wait; `fuelOut` models a drain that is
still running after `fuel` frame updates (the Go loop can run
unboundedly long). -/
def drainStack (env : Env) (tables : DefTables) :
    Nat → List actionProcessFrame → Mach → DrainRes
  | _, [], m => .done [] m
  | 0, _, _ => .fuelOut
  | fuel + 1, top :: rest, m =>
      match actionProcessFrame.update env tables top m with
      | .ret fr pushed m2 =>
          drainStack env tables fuel
            (match pushed with
              | some p => p :: fr :: rest
              | none => fr :: rest) m2
      | .wait fr m2 => .done (fr :: rest) m2
      | .frameEnd m2 => drainStack env tables fuel rest m2
      | .err e => .err e
      | .undef => .undef
      | .crash => .crash

/-- Result of `actionProcess.update`: `ended` is the `actionProcessEnd`
sentinel (the runner drops the process). -/
inductive ProcRes where
  | ended (m : Mach)
  | ok (m : Mach)
  | err (msg : String)
  | crash
  | undef
  | fuelOut

/-- The end-of-tick completion test of `actionProcess.update`: the stack
is empty and the (already incremented) tick counter has passed the
wait, changeSpeed and changeDirection deadlines.  `accelUntil` is not
consulted. -/
def endCondB (p : actionProcess) : Bool :=
  p.stack.isEmpty && decide (p.ticks > p.waitUntil) &&
    decide (p.ticks > p.changeSpeedUntil) && decide (p.ticks > p.changeDirectionUntil)

/-- The first `if` block of `actionProcess.update` after the drain:
apply the timed `changeSpeed` modifier to the owning runner's bullet. -/
def applyChangeSpeed (p : actionProcess) (rb : bulletModel) : bulletModel :=
  if p.ticks < p.changeSpeedUntil then
    { rb with speed := GF.add rb.speed p.changeSpeedDelta }
  else if p.ticks = p.changeSpeedUntil then
    { rb with speed := p.changeSpeedTarget }
  else rb

/-- The second `if` block: the timed `changeDirection` modifier. -/
def applyChangeDirection (p : actionProcess) (rb : bulletModel) : bulletModel :=
  if p.ticks < p.changeDirectionUntil then
    { rb with direction := GF.add rb.direction p.changeDirectionDelta }
  else if p.ticks = p.changeDirectionUntil then
    { rb with direction := p.changeDirectionTarget }
  else rb

/-- The third `if` block: the timed `accel` modifier. -/
def applyAccel (p : actionProcess) (rb : bulletModel) : bulletModel :=
  if p.ticks < p.accelUntil then
    { rb with
      accelSpeedHorizontal := GF.add rb.accelSpeedHorizontal p.accelHorizontalDelta
      accelSpeedVertical := GF.add rb.accelSpeedVertical p.accelVerticalDelta }
  else if p.ticks = p.accelUntil then
    { rb with
      accelSpeedHorizontal := p.accelHorizontalTarget
      accelSpeedVertical := p.accelVerticalTarget }
  else rb

/-- The modifier-application phase of `actionProcess.update` (the three
`if` blocks between the drain and the tick increment), acting on the
owning runner's bullet. -/
def applyModifiers (p : actionProcess) (rb : bulletModel) : bulletModel :=
  applyAccel p (applyChangeDirection p (applyChangeSpeed p rb))

/-- `actionProcess.update`: gate the drain on the wait deadline, apply
the timed modifiers, increment the tick counter, and decide whether the
process has ended. -/
def actionProcessUpdate (env : Env) (tables : DefTables) (fuel : Nat) (m : Mach) : ProcRes :=
  let p := m.proc
  let afterDrain : DrainRes :=
    if p.ticks > p.waitUntil then drainStack env tables fuel p.stack m
    else .done p.stack m
  match afterDrain with
  | .err e => .err e
  | .crash => .crash
  | .undef => .undef
  | .fuelOut => .fuelOut
  | .done stack2 m2 =>
      let p2 := { m2.proc with stack := stack2 }
      let rb := applyModifiers p2 m2.rbullet
      let p3 := { p2 with ticks := p2.ticks + 1 }
      let m3 := { m2 with proc := p3, rbullet := rb }
      if endCondB p3 then .ended m3 else .ok m3

/-- Result of `runner.Update`. -/
inductive UpdateRes where
  | ok (r : RunnerModel) (randIdx : Nat) (fired : List RunnerModel)
  | err (msg : String)
  | crash
  | undef
  | fuelOut

/-- `runner.Update`: tick every process in order, dropping the ended
ones, then run `updateBulletPosition` (shoot-position rewrite for the
top runner, kinematic integration for a bullet runner). -/
def runnerUpdate (env : Env) (fuel : Nat) (r : RunnerModel) (randIdx : Nat)
    (fired : List RunnerModel) : UpdateRes :=
  go r.actionProcesses r.bullet randIdx fired []
where
  go : List actionProcess → bulletModel → Nat → List RunnerModel → List actionProcess →
      UpdateRes
    | [], rb, ridx, fired, acc =>
        let rb2 :=
          if r.isTop then { rb with x := env.shootPos.1, y := env.shootPos.2 }
          else if rb.vanished then rb
          else
            { rb with
              x := GF.add (GF.add rb.x (GF.mul rb.speed (env.cosF rb.direction)))
                rb.accelSpeedHorizontal
              y := GF.add (GF.add rb.y (GF.mul rb.speed (env.sinF rb.direction)))
                rb.accelSpeedVertical }
        .ok { r with bullet := rb2, actionProcesses := acc } ridx fired
    | p :: rest, rb, ridx, fired, acc =>
        match actionProcessUpdate env r.tables fuel
            { rbullet := rb, proc := p, randIdx := ridx, fired := fired } with
        | .ended m => go rest m.rbullet m.randIdx m.fired acc
        | .ok m => go rest m.rbullet m.randIdx m.fired (acc ++ [m.proc])
        | .err e => .err e
        | .crash => .crash
        | .undef => .undef
        | .fuelOut => .fuelOut

/-- Iterated `runner.Update`. -/
def runUpdates (env : Env) (fuel : Nat) : Nat → RunnerModel → Nat → List RunnerModel →
    UpdateRes
  | 0, r, ridx, fired => .ok r ridx fired
  | n + 1, r, ridx, fired =>
      match runnerUpdate env fuel r ridx fired with
      | .ok r2 ridx2 fired2 => runUpdates env fuel n r2 ridx2 fired2
      | other => other

/-! ## Claim C5, concluded -/

theorem prepBulletList_excl (env : Env) :
    ∀ l l2, prepBulletList env l = .ok l2 → l.all BBullet.exclOK = true := by
  intro l
  induction l with
  | nil => intro l2 h; rfl
  | cons b rest ih =>
      intro l2 h
      simp only [prepBulletList] at h
      cases hb : BBullet.prepare env b with
      | ok b2 =>
          rw [hb, Outcome.bind_ok] at h
          cases hr : prepBulletList env rest with
          | ok r2 =>
              rw [List.all_cons, Bool.and_eq_true]
              exact ⟨(prepare_excl_aux env (sizeOf b)).1 b le_rfl b2 hb, ih r2 hr⟩
          | err m => rw [hr] at h; simp at h
          | crash => rw [hr] at h; simp at h
          | undef => rw [hr] at h; simp at h
      | err m => rw [hb] at h; simp at h
      | crash => rw [hb] at h; simp at h
      | undef => rw [hb] at h; simp at h

theorem prepActionList_excl (env : Env) :
    ∀ l l2, prepActionList env l = .ok l2 → l.all BAction.exclOK = true := by
  intro l
  induction l with
  | nil => intro l2 h; rfl
  | cons a rest ih =>
      intro l2 h
      simp only [prepActionList] at h
      cases ha : BAction.prepare env a with
      | ok a2 =>
          rw [ha, Outcome.bind_ok] at h
          cases hr : prepActionList env rest with
          | ok r2 =>
              rw [List.all_cons, Bool.and_eq_true]
              exact ⟨(prepare_excl_aux env (sizeOf a)).2.2.2.1 a le_rfl a2 ha, ih r2 hr⟩
          | err m => rw [hr] at h; simp at h
          | crash => rw [hr] at h; simp at h
          | undef => rw [hr] at h; simp at h
      | err m => rw [ha] at h; simp at h
      | crash => rw [ha] at h; simp at h
      | undef => rw [ha] at h; simp at h

theorem prepFireList_excl (env : Env) :
    ∀ l l2, prepFireList env l = .ok l2 → l.all BFire.exclOK = true := by
  intro l
  induction l with
  | nil => intro l2 h; rfl
  | cons f rest ih =>
      intro l2 h
      simp only [prepFireList] at h
      cases hf : BFire.prepare env f with
      | ok f2 =>
          rw [hf, Outcome.bind_ok] at h
          cases hr : prepFireList env rest with
          | ok r2 =>
              rw [List.all_cons, Bool.and_eq_true]
              exact ⟨(prepare_excl_aux env (sizeOf f)).2.2.2.2.2.2.2 f le_rfl f2 hf,
                ih r2 hr⟩
          | err m => rw [hr] at h; simp at h
          | crash => rw [hr] at h; simp at h
          | undef => rw [hr] at h; simp at h
      | err m => rw [hf] at h; simp at h
      | crash => rw [hf] at h; simp at h
      | undef => rw [hf] at h; simp at h

/-- A document that `prepareNodeTree` accepts satisfies the spec's
mutual-exclusion conditions. -/
theorem prepareNodeTree_exclOK (env : Env) (b b2 : BulletML)
    (h : prepareNodeTree env b = .ok b2) : BulletML.exclOK b = true := by
  simp only [prepareNodeTree] at h
  split at h
  all_goals split at h
  all_goals try exact Outcome.noConfusion h
  all_goals
    cases hb : prepBulletList env b.bullets with
    | ok bs =>
        rw [hb, Outcome.bind_ok] at h
        cases ha : prepActionList env b.actions with
        | ok as2 =>
            rw [ha, Outcome.bind_ok] at h
            cases hf : prepFireList env b.fires with
            | ok fs =>
                simp only [BulletML.exclOK, Bool.and_eq_true]
                exact ⟨⟨prepBulletList_excl env _ _ hb,
                  prepActionList_excl env _ _ ha⟩, prepFireList_excl env _ _ hf⟩
            | err m => rw [hf] at h; simp at h
            | crash => rw [hf] at h; simp at h
            | undef => rw [hf] at h; simp at h
        | err m => rw [ha] at h; simp at h
        | crash => rw [ha] at h; simp at h
        | undef => rw [ha] at h; simp at h
    | err m => rw [hb] at h; simp at h
    | crash => rw [hb] at h; simp at h
    | undef => rw [hb] at h; simp at h

/-- A document whose only fire carries both an inline `<bullet>` and a
`<bulletRef>`. -/
def docBoth : BulletML :=
  ⟨"", [], [],
    [.mk "f" none none (some (.mk "" none none [])) (some ⟨"b", []⟩)]⟩

/-- **C5, as stated, is false in its "surfaced from Load" part**: the
both-of-two-options document `docBoth` passes `Load` without error (the
current `Load` only decodes, it does not call `prepareNodeTree`); the
"Both ... exist" error only appears when `NewRunner` runs
`prepareNodeTree`. -/
theorem C5_counterexample :
    LoadModel docBoth = .ok docBoth ∧
    BulletML.exclOK docBoth = false ∧
    NewRunnerGo demoEnv docBoth
      = .err "Both <bullet> and <bulletRef> exist in <fire> element" := by
  refine ⟨rfl, by with_unfolding_all rfl, by with_unfolding_all rfl⟩

/-- **C5 (amended)**: the exactly-one checks of `Fire` and `Repeat` are
enforced, but at `NewRunner` time (via `prepareNodeTree`), not by `Load`:
whenever `NewRunner` succeeds the document satisfies them, while `Load`
accepts any decoded document. -/
theorem C5_exactly_one_checked_at_newrunner (env : Env) (b : BulletML)
    (p : Env × RunnerModel) (h : NewRunnerGo env b = .ok p) :
    BulletML.exclOK b = true ∧ LoadModel b = .ok b := by
  refine ⟨?_, rfl⟩
  simp only [NewRunnerGo] at h
  cases hp : prepareNodeTree (normOpts env) b with
  | ok b2 => exact prepareNodeTree_exclOK (normOpts env) b b2 hp
  | err m => rw [hp] at h; simp at h
  | crash => rw [hp] at h; simp at h
  | undef => rw [hp] at h; simp at h

/-- The empty document, accepted by `NewRunner`. -/
def docEmpty : BulletML := ⟨"", [], [], []⟩

/-- The runner `NewRunner` builds for `docEmpty` under `demoEnv`. -/
def rEmpty : RunnerModel :=
  { bullet := { speed := GF.fin 2 }
    isTop := true
    actionProcesses := []
    tables := ⟨[], [], []⟩ }

/-- Witness for `C5_exactly_one_checked_at_newrunner` at the empty
document. -/
theorem C5_exactly_one_checked_at_newrunner_witness :
    BulletML.exclOK docEmpty = true ∧ LoadModel docEmpty = .ok docEmpty :=
  C5_exactly_one_checked_at_newrunner demoEnv docEmpty (demoEnv, rEmpty)
    (by with_unfolding_all rfl)

/-! ## Claim C6: reference resolution through the definition tables -/

theorem lookupParam_insertParam_self (m : Params) (k : String) (v : GF) :
    lookupParam (insertParam m k v) k = some v := by
  induction m with
  | nil => simp [insertParam, lookupParam]
  | cons kv rest ih =>
      obtain ⟨k1, v1⟩ := kv
      by_cases hk : k1 = k
      · simp [insertParam, lookupParam, hk]
      · simp [insertParam, lookupParam, hk, ih]

theorem lookupParam_insertParam_pres (m : Params) (k k2 : String) (v : GF)
    (h : ∃ v0, lookupParam m k = some v0) :
    ∃ v1, lookupParam (insertParam m k2 v) k = some v1 := by
  induction m with
  | nil => obtain ⟨v0, h0⟩ := h; simp [lookupParam] at h0
  | cons kv rest ih =>
      obtain ⟨k1, v1⟩ := kv
      by_cases h2 : k1 = k2
      · subst h2
        by_cases h1 : k1 = k
        · exact ⟨v, by simp [insertParam, lookupParam, h1]⟩
        · simp only [insertParam, if_pos rfl]
          simp only [lookupParam, if_neg h1] at h ⊢
          exact h
      · by_cases h1 : k1 = k
        · subst h1
          exact ⟨v1, by simp [insertParam, lookupParam, h2]⟩
        · simp only [lookupParam, if_neg h1] at h
          simp only [insertParam, if_neg h2, lookupParam, if_neg h1]
          exact ih h

/-- Every key bound in the accumulator, and every key `$(i+j)` for a
position `j` of the param list, ends up bound in the map `evalRefParams`
returns. -/
theorem evalRefParams_binds (env : Env) :
    ∀ (l : List BParam) (cp : Params) (rb : bulletModel) (ridx i : Nat) (acc : Params)
      (mp : Params) (r2 : Nat),
      evalRefParams env l cp rb ridx i acc = .ok (mp, r2) →
      ∀ k : String,
        ((∃ v, lookupParam acc k = some v) ∨
          (∃ j, j < l.length ∧ k = "$" ++ toString (i + j))) →
        ∃ v, lookupParam mp k = some v := by
  intro l
  induction l with
  | nil =>
      intro cp rb ridx i acc mp r2 h k hk
      simp only [evalRefParams, Outcome.ok.injEq, Prod.mk.injEq] at h
      obtain ⟨hmp, -⟩ := h
      rcases hk with ⟨v, hv⟩ | ⟨j, hj, -⟩
      · exact ⟨v, by rw [← hmp]; exact hv⟩
      · simp at hj
  | cons p rest ih =>
      intro cp rb ridx i acc mp r2 h k hk
      simp only [evalRefParams] at h
      cases he : evaluateExpr env p.expr cp rb ridx with
      | ok vr =>
          obtain ⟨v, r1⟩ := vr
          rw [he, Outcome.bind_ok] at h
          refine ih cp rb r1 (i + 1) _ mp r2 h k ?_
          rcases hk with hacc | ⟨j, hj, hkj⟩
          · exact Or.inl (lookupParam_insertParam_pres _ _ _ _ hacc)
          · cases j with
            | zero =>
                refine Or.inl ⟨v, ?_⟩
                rw [hkj, Nat.add_zero]
                exact lookupParam_insertParam_self acc _ v
            | succ j2 =>
                refine Or.inr ⟨j2, by simp at hj ⊢; omega, ?_⟩
                rw [hkj, show i + (j2 + 1) = (i + 1) + j2 from by omega]
      | err m => rw [he] at h; simp at h
      | crash => rw [he] at h; simp at h
      | undef => rw [he] at h; simp at h

/-- **C6 (amended)**: `lookUpDefTable` returns the `not found` error
exactly in the absent-label case; with the label present it evaluates the
ref's params under the caller's parameters — an evaluation error
propagates (so errors are not limited to absent labels) — and on success
every position `j` of the param list is bound to `$(j+1)` in the fresh
map handed to the referenced definition. -/
theorem C6_lookUpDefTable_behavior {α : Type} (xmlName : String)
    (table : List (String × α)) (r : BRef) (params : Params) (env : Env)
    (rb : bulletModel) (ridx : Nat) :
    (tableLookup table r.label = none →
      lookUpDefTable xmlName table r params env rb ridx
        = .err ("<" ++ xmlName ++ " label=\"" ++ r.label ++ "\"> not found")) ∧
    (∀ t, tableLookup table r.label = some t →
      ∀ mp r2, evalRefParams env r.params params rb ridx 1 [] = .ok (mp, r2) →
        lookUpDefTable xmlName table r params env rb ridx = .ok (t, mp, r2) ∧
          ∀ j, j < r.params.length →
            ∃ v, lookupParam mp ("$" ++ toString (j + 1)) = some v) ∧
    (∀ t e, tableLookup table r.label = some t →
      evalRefParams env r.params params rb ridx 1 [] = .err e →
      lookUpDefTable xmlName table r params env rb ridx = .err e) := by
  refine ⟨?_, ?_, ?_⟩
  · intro hn
    simp only [lookUpDefTable, hn]
  · intro t ht mp r2 hev
    constructor
    · simp only [lookUpDefTable, ht, hev, Outcome.bind_ok]
    · intro j hj
      refine evalRefParams_binds env r.params params rb ridx 1 [] mp r2 hev _ ?_
      exact Or.inr ⟨j, hj, by rw [Nat.add_comm]⟩
  · intro t e ht hev
    simp only [lookUpDefTable, ht, hev, Outcome.bind_err]

/-- A one-entry action table for the C6 instances. -/
def c6Act : BAction := .mk "a" []

/-- The action definition table `{"a" ↦ c6Act}`. -/
def c6Table : List (String × BAction) := [("a", c6Act)]

/-- **C6, as stated, is false in its "exactly when" part**: resolving a
ref whose label `"a"` *is* present still errors, because its parameter
expression `$p` is an unknown variable; so `lookUpDefTable` errors are
not limited to absent labels. -/
theorem C6_counterexample :
    tableLookup c6Table "a" = some c6Act ∧
    lookUpDefTable "actionRef" c6Table (BRef.mk "a" [⟨GoExpr.ident "$p"⟩]) [] demoEnv
        {} 0 = .err "Invalid variable name: $p" ∧
    ("Invalid variable name: $p" : String)
      ≠ "<actionRef label=\"a\"> not found" := by
  refine ⟨by with_unfolding_all rfl, by with_unfolding_all rfl, by decide⟩

/-- Witness for `C6_lookUpDefTable_behavior`: the absent-label error on
an empty table, and a successful resolution binding `$1`. -/
theorem C6_lookUpDefTable_behavior_witness :
    lookUpDefTable "actionRef" ([] : List (String × BAction)) (BRef.mk "x" []) []
        demoEnv {} 0 = .err "<actionRef label=\"x\"> not found" ∧
    lookUpDefTable "actionRef" c6Table (BRef.mk "a" [⟨GoExpr.number (GF.fin 7)⟩]) []
        demoEnv {} 0 = .ok (c6Act, [("$1", GF.fin 7)], 0) ∧
    lookupParam [("$1", GF.fin 7)] "$1" = some (GF.fin 7) :=
  ⟨(C6_lookUpDefTable_behavior "actionRef" [] (BRef.mk "x" []) [] demoEnv {} 0).1
      (by with_unfolding_all rfl),
   ((C6_lookUpDefTable_behavior "actionRef" c6Table
        (BRef.mk "a" [⟨GoExpr.number (GF.fin 7)⟩]) [] demoEnv {} 0).2.1 c6Act
      (by with_unfolding_all rfl) [("$1", GF.fin 7)] 0 (by with_unfolding_all rfl)).1,
   by with_unfolding_all rfl⟩

/-! ## Claim C1: the process end condition -/

/-- Empty definition tables (no labeled definitions). -/
def emptyTables : DefTables := ⟨[], [], []⟩

/-- A process with an empty stack whose `accel` deadline (5) is still in
the future, in a fresh machine state. -/
def mC1 : Mach :=
  { rbullet := {}, proc := { accelUntil := 5 }, randIdx := 0, fired := [] }

/-- **C1, as stated, is false**: `mC1`'s process is reaped on the very
first tick — `actionProcess.update` ignores `accelUntil` in its end
check — even though its tick counter (1) has not passed the `accel`
deadline (5). -/
theorem C1_counterexample :
    actionProcessUpdate demoEnv emptyTables 1 mC1
      = .ended { mC1 with proc := { mC1.proc with ticks := 1 } } ∧
    ¬ (({ mC1.proc with ticks := 1 } : actionProcess).ticks
        > ({ mC1.proc with ticks := 1 } : actionProcess).accelUntil) := by
  refine ⟨by with_unfolding_all rfl, by decide⟩

/-- **C1 (amended)**: a process ends exactly when, after the tick, its
stack is empty and its tick counter exceeds the maximum of the *three*
deadlines `waitUntil`, `changeSpeedUntil` and `changeDirectionUntil`;
`accelUntil` does not take part. -/
theorem C1_end_condition (env : Env) (tables : DefTables) (fuel : Nat) (m m3 : Mach) :
    (actionProcessUpdate env tables fuel m = .ended m3 →
      m3.proc.stack = [] ∧
      m3.proc.ticks > max m3.proc.waitUntil
        (max m3.proc.changeSpeedUntil m3.proc.changeDirectionUntil)) ∧
    (actionProcessUpdate env tables fuel m = .ok m3 →
      ¬ (m3.proc.stack = [] ∧
        m3.proc.ticks > max m3.proc.waitUntil
          (max m3.proc.changeSpeedUntil m3.proc.changeDirectionUntil))) := by
  simp only [actionProcessUpdate]
  cases hd : (if m.proc.ticks > m.proc.waitUntil
      then drainStack env tables fuel m.proc.stack m
      else .done m.proc.stack m) with
  | done stack2 m2 =>
      dsimp only
      constructor
      · intro h
        split at h
        · rename_i hend
          simp only [ProcRes.ended.injEq] at h
          subst h
          simp only [endCondB, Bool.and_eq_true, List.isEmpty_iff,
            decide_eq_true_eq] at hend
          obtain ⟨⟨⟨hs, hw⟩, hcs⟩, hcd⟩ := hend
          refine ⟨hs, ?_⟩
          show m2.proc.ticks + 1 > max m2.proc.waitUntil
            (max m2.proc.changeSpeedUntil m2.proc.changeDirectionUntil)
          omega
        · exact ProcRes.noConfusion h
      · intro h
        split at h
        · exact ProcRes.noConfusion h
        · rename_i hend
          simp only [ProcRes.ok.injEq] at h
          subst h
          rintro ⟨hs, hm⟩
          have hs2 : stack2 = [] := hs
          have hm2 : m2.proc.ticks + 1 > max m2.proc.waitUntil
              (max m2.proc.changeSpeedUntil m2.proc.changeDirectionUntil) := hm
          apply hend
          simp only [endCondB, Bool.and_eq_true, List.isEmpty_iff, decide_eq_true_eq]
          refine ⟨⟨⟨hs2, ?_⟩, ?_⟩, ?_⟩ <;> omega
  | err e => exact ⟨fun h => ProcRes.noConfusion h, fun h => ProcRes.noConfusion h⟩
  | crash => exact ⟨fun h => ProcRes.noConfusion h, fun h => ProcRes.noConfusion h⟩
  | undef => exact ⟨fun h => ProcRes.noConfusion h, fun h => ProcRes.noConfusion h⟩
  | fuelOut => exact ⟨fun h => ProcRes.noConfusion h, fun h => ProcRes.noConfusion h⟩

/-- A fresh machine state whose process waits until tick 5 (retained),
next to one with all deadlines expired (reaped): the two concrete
instantiations of `C1_end_condition`. -/
def mC1w : Mach := { rbullet := {}, proc := {}, randIdx := 0, fired := [] }

/-- A machine state whose process waits until tick 5. -/
def mC1k : Mach :=
  { rbullet := {}, proc := { waitUntil := 5 }, randIdx := 0, fired := [] }

/-- Witness for `C1_end_condition` in both directions. -/
theorem C1_end_condition_witness :
    (({ mC1w with proc := { mC1w.proc with ticks := 1 } } : Mach).proc.stack = [] ∧
      ({ mC1w with proc := { mC1w.proc with ticks := 1 } } : Mach).proc.ticks >
        max (-1) (max (-1) (-1))) ∧
    ¬ (({ mC1k with proc := { mC1k.proc with ticks := 1 } } : Mach).proc.stack = [] ∧
      ({ mC1k with proc := { mC1k.proc with ticks := 1 } } : Mach).proc.ticks >
        max 5 (max (-1) (-1))) :=
  ⟨(C1_end_condition demoEnv emptyTables 1 mC1w
      { mC1w with proc := { mC1w.proc with ticks := 1 } }).1
      (by with_unfolding_all rfl),
   (C1_end_condition demoEnv emptyTables 1 mC1k
      { mC1k with proc := { mC1k.proc with ticks := 1 } }).2
      (by with_unfolding_all rfl)⟩

/-! ## Claim C2: the semantics of `Wait 0` -/

/-- Build a runner for a document and run `n` calls of `Update`,
collecting the runners fired along the way. -/
def runDoc (env : Env) (b : BulletML) (fuel n : Nat) : UpdateRes :=
  match NewRunnerGo env b with
  | .ok (env2, r) => runUpdates env2 fuel n r 0 []
  | .err e => .err e
  | .undef => .undef
  | .crash => .crash

/-- How many bullets were fired (observed through `OnBulletFired`). -/
def firedCount : UpdateRes → Option Nat
  | .ok _ _ fired => some fired.length
  | _ => none

/-- The directions of the fired bullets, in firing order. -/
def firedDirections : UpdateRes → Option (List GF)
  | .ok _ _ fired => some (fired.map (fun r => r.bullet.direction))
  | _ => none

/-- The direction of the runner's own bullet. -/
def bulletDirection : UpdateRes → Option GF
  | .ok r _ _ => some r.bullet.direction
  | _ => none

/-- A top action whose body is `wait 0` followed by a fire. -/
def docC2 : BulletML :=
  ⟨"", [],
    [.mk "top"
      [.cwait ⟨.basicLit .intLit 0⟩,
       .cfire (.mk "" none none (some (.mk "" none none [])) none)]], []⟩

/-- **C2, as stated, is false**: with a `wait 0` before the fire, the
first `Update` fires nothing — `Wait` unconditionally ends the frame's
turn for the tick, so `W = 0` consumes one tick, not zero — and the fire
only happens on the second `Update`. -/
theorem C2_counterexample :
    firedCount (runDoc demoEnv docC2 9 1) = some 0 ∧
    firedCount (runDoc demoEnv docC2 9 2) = some 1 := by
  refine ⟨by with_unfolding_all rfl, by with_unfolding_all rfl⟩

/-- **C2 (amended)**: executing a `Wait` whose expression evaluates to a
float `v` with `int(v) = k` (any `k`, including 0) sets
`waitUntil := ticks + k`, advances the cursor, and *unconditionally*
signals the wait sentinel, ending the frame's execution for this tick. -/
theorem C2_wait_always_signals (env : Env) (tables : DefTables)
    (fr : actionProcessFrame) (m : Mach) (w : BWait) (v : GF) (r1 : Nat) (k : ℤ)
    (hc : fr.action.commands[fr.actionIndex]? = some (.cwait w))
    (he : evaluateExpr env w.expr fr.params m.rbullet m.randIdx = .ok (v, r1))
    (hk : toInt64 v = some k) :
    actionProcessFrame.update env tables fr m =
      .wait { fr with actionIndex := fr.actionIndex + 1 }
        { m with randIdx := r1,
                 proc := { m.proc with waitUntil := m.proc.ticks + k } } := by
  have hlt : fr.actionIndex < fr.action.commands.length := by
    by_contra hge
    rw [List.getElem?_eq_none (by omega)] at hc
    exact Option.noConfusion hc
  obtain ⟨n, hn⟩ : ∃ n, fr.action.commands.length - fr.actionIndex = n + 1 :=
    ⟨fr.action.commands.length - fr.actionIndex - 1, by omega⟩
  unfold actionProcessFrame.update
  rw [hn]
  simp only [frameStep, hc, he, hk]

/-- The frame and machine state instantiating `C2_wait_always_signals`
at a concrete `wait 0`. -/
def frC2 : actionProcessFrame :=
  { action := .mk "top" [.cwait ⟨.number (GF.fin 0)⟩] }

/-- The machine state for the `C2_wait_always_signals` witness. -/
def mC2 : Mach := { rbullet := {}, proc := {}, randIdx := 0, fired := [] }

/-- Witness for `C2_wait_always_signals` at `wait 0`. -/
theorem C2_wait_always_signals_witness :
    actionProcessFrame.update demoEnv emptyTables frC2 mC2 =
      .wait { frC2 with actionIndex := 1 }
        { mC2 with randIdx := 0, proc := { mC2.proc with waitUntil := 0 } } :=
  C2_wait_always_signals demoEnv emptyTables frC2 mC2 ⟨.number (GF.fin 0)⟩
    (GF.fin 0) 0 0 (by with_unfolding_all rfl) (by with_unfolding_all rfl)
    (by with_unfolding_all rfl)

/-! ## Claim C3: `sequence` direction with an unset `lastShoot`

The one-`Update` run of the fan document is evaluated drain-step by
drain-step (the whole-run term is too deep for one reduction). -/

/-- One drain-loop iteration whose frame pushed a new frame. -/
theorem drainStack_step_ret {env : Env} {tb : DefTables} {top : actionProcessFrame}
    {rest : List actionProcessFrame} {m : Mach} {fr p : actionProcessFrame} {m2 : Mach}
    (n : Nat) (h : actionProcessFrame.update env tb top m = .ret fr (some p) m2) :
    drainStack env tb (n + 1) (top :: rest) m = drainStack env tb n (p :: fr :: rest) m2 := by
  simp only [drainStack, h]

/-- One drain-loop iteration whose frame finished (is popped). -/
theorem drainStack_step_end {env : Env} {tb : DefTables} {top : actionProcessFrame}
    {rest : List actionProcessFrame} {m : Mach} {m2 : Mach}
    (n : Nat) (h : actionProcessFrame.update env tb top m = .frameEnd m2) :
    drainStack env tb (n + 1) (top :: rest) m = drainStack env tb n rest m2 := by
  simp only [drainStack, h]

theorem drainStack_nil (env : Env) (tb : DefTables) (n : Nat) (m : Mach) :
    drainStack env tb n [] m = .done [] m := by
  cases n <;> rfl

/-- `<fire><direction type="sequence">30</direction><bullet/></fire>`. -/
def fireSeq : BFire :=
  .mk "" (some ⟨"sequence", .basicLit .intLit 30⟩) none
    (some (.mk "" none none [])) none

/-- A top action repeating `fireSeq` three times. -/
def docC3 : BulletML :=
  ⟨"", [],
    [.mk "top"
      [.crepeat (.mk (some ⟨.basicLit .intLit 3⟩)
        (some (.mk "" [.cfire fireSeq])) none)]], []⟩

/-- `fireSeq` after `prepare` (the literals are folded). -/
def fireSeqP : BFire :=
  .mk "" (some ⟨"sequence", .number (GF.fin 30)⟩) none
    (some (.mk "" none none [])) none

/-- The repeated inner action, prepared. -/
def actInnerC3 : BAction := .mk "" [.cfire fireSeqP]

/-- The top action of `docC3`, prepared. -/
def aC3P : BAction :=
  .mk "top" [.crepeat (.mk (some ⟨.number (GF.fin 3)⟩) (some actInnerC3) none)]

/-- The definition tables `NewRunner` builds for `docC3`. -/
def tbC3 : DefTables := ⟨[("top", aC3P)], [], []⟩

/-- The top runner's synthetic bullet for `docC3` under `demoEnv`. -/
def bTopC3 : bulletModel := { speed := GF.fin 2 }

/-- The entry frame rooted at `aC3P`, after `i` completed repeat
iterations. -/
def frTopC3 (i : Int) : actionProcessFrame := { action := aC3P, repeatIndex := i }

/-- The runner `NewRunner` builds for `docC3`. -/
def rC3 : RunnerModel :=
  { bullet := bTopC3
    isTop := true
    actionProcesses := [{ stack := [frTopC3 0] }]
    tables := tbC3 }

/-- The child frame the repeat pushes on iteration `i` (zero-based). -/
def chC3 (i : ℚ) : actionProcessFrame :=
  { action := actInnerC3, params := [("$loop.index", GF.fin i)] }

/-- A bullet fired with speed 2 in direction `d` from the origin. -/
def bulletD (d : ℚ) : bulletModel := { speed := GF.fin 2, direction := GF.fin d }

/-- The runner handed to `OnBulletFired` for a fan bullet in direction
`d`. -/
def bFired (d : ℚ) : RunnerModel :=
  { bullet := bulletD d, isTop := false, actionProcesses := [{}], tables := tbC3 }

/-- Machine state at the start of the first `Update` of `docC3`. -/
def mC3_0 : Mach :=
  { rbullet := bTopC3, proc := { stack := [frTopC3 0] }, randIdx := 0, fired := [] }

/-- ... after the first fan bullet (π/6). -/
def mC3_1 : Mach :=
  { rbullet := bTopC3
    proc := { stack := [frTopC3 0], lastShoot := bulletD (pi64 / 6) }
    randIdx := 0
    fired := [bFired (pi64 / 6)] }

/-- ... after the second fan bullet (π/3). -/
def mC3_2 : Mach :=
  { rbullet := bTopC3
    proc := { stack := [frTopC3 0], lastShoot := bulletD (pi64 / 3) }
    randIdx := 0
    fired := [bFired (pi64 / 6), bFired (pi64 / 3)] }

/-- ... after the third fan bullet (π/2). -/
def mC3_3 : Mach :=
  { rbullet := bTopC3
    proc := { stack := [frTopC3 0], lastShoot := bulletD (pi64 / 2) }
    randIdx := 0
    fired := [bFired (pi64 / 6), bFired (pi64 / 3), bFired (pi64 / 2)] }

/-- ... at the end of the first `Update` (stack empty, tick counted). -/
def mC3_4 : Mach :=
  { rbullet := bTopC3
    proc := { ticks := 1, stack := [], lastShoot := bulletD (pi64 / 2) }
    randIdx := 0
    fired := [bFired (pi64 / 6), bFired (pi64 / 3), bFired (pi64 / 2)] }

theorem c3_u1 :
    actionProcessFrame.update demoEnv tbC3 (frTopC3 0) mC3_0
      = .ret (frTopC3 1) (some (chC3 0)) mC3_0 := by
  with_unfolding_all rfl

theorem c3_u2 :
    actionProcessFrame.update demoEnv tbC3 (chC3 0) mC3_0 = .frameEnd mC3_1 := by
  with_unfolding_all rfl

theorem c3_u3 :
    actionProcessFrame.update demoEnv tbC3 (frTopC3 1) mC3_1
      = .ret (frTopC3 2) (some (chC3 1)) mC3_1 := by
  with_unfolding_all rfl

theorem c3_u4 :
    actionProcessFrame.update demoEnv tbC3 (chC3 1) mC3_1 = .frameEnd mC3_2 := by
  with_unfolding_all rfl

theorem c3_u5 :
    actionProcessFrame.update demoEnv tbC3 (frTopC3 2) mC3_2
      = .ret (frTopC3 3) (some (chC3 2)) mC3_2 := by
  with_unfolding_all rfl

theorem c3_u6 :
    actionProcessFrame.update demoEnv tbC3 (chC3 2) mC3_2 = .frameEnd mC3_3 := by
  with_unfolding_all rfl

theorem c3_u7 :
    actionProcessFrame.update demoEnv tbC3 (frTopC3 3) mC3_3 = .frameEnd mC3_3 := by
  with_unfolding_all rfl

/-- The full drain of the first `Update` of `docC3`. -/
theorem c3_drain :
    drainStack demoEnv tbC3 20 [frTopC3 0] mC3_0 = .done [] mC3_3 := by
  rw [drainStack_step_ret 19 c3_u1, drainStack_step_end 18 c3_u2,
    drainStack_step_ret 17 c3_u3, drainStack_step_end 16 c3_u4,
    drainStack_step_ret 15 c3_u5, drainStack_step_end 14 c3_u6,
    drainStack_step_end 13 c3_u7, drainStack_nil]

/-- `actionProcess.update` with the drain's result supplied as a
hypothesis: the wait gate is open and the drain came back `done`. -/
theorem actionProcessUpdate_drained {env : Env} {tb : DefTables} {fuel : Nat} {m : Mach}
    {stack2 : List actionProcessFrame} {m2 : Mach}
    (hgate : m.proc.ticks > m.proc.waitUntil)
    (hd : drainStack env tb fuel m.proc.stack m = .done stack2 m2) :
    actionProcessUpdate env tb fuel m =
      (let p2 := { m2.proc with stack := stack2 }
       let rb := applyModifiers p2 m2.rbullet
       let p3 := { p2 with ticks := p2.ticks + 1 }
       let m3 := { m2 with proc := p3, rbullet := rb }
       if endCondB p3 then .ended m3 else .ok m3) := by
  simp only [actionProcessUpdate, if_pos hgate, hd]

/-- The first `Update`'s process tick for `docC3`. -/
theorem c3_proc :
    actionProcessUpdate demoEnv tbC3 20
      { rbullet := bTopC3, proc := { stack := [frTopC3 0] }, randIdx := 0, fired := [] }
      = .ended mC3_4 := by
  rw [actionProcessUpdate_drained (by decide) (show _ from c3_drain)]
  with_unfolding_all rfl

/-- The runner after the first `Update` of `docC3`. -/
def rC3f : RunnerModel :=
  { bullet := bTopC3, isTop := true, actionProcesses := [], tables := tbC3 }

/-- The fired list of the first `Update` of `docC3`. -/
def firedC3 : List RunnerModel :=
  [bFired (pi64 / 6), bFired (pi64 / 3), bFired (pi64 / 2)]

/-- The first `Update` of `docC3` in full. -/
theorem c3_runner : runnerUpdate demoEnv 20 rC3 0 [] = .ok rC3f 0 firedC3 := by
  show runnerUpdate.go demoEnv 20 rC3 [{ stack := [frTopC3 0] }] bTopC3 0 [] [] = _
  simp only [runnerUpdate.go]
  rw [show rC3.tables = tbC3 from rfl]
  rw [c3_proc]
  with_unfolding_all rfl

/-- The whole `runDoc` pipeline for `docC3`, one `Update`. -/
theorem c3_run : runDoc demoEnv docC3 20 1 = .ok rC3f 0 firedC3 := by
  have hnew : NewRunnerGo demoEnv docC3 = .ok (demoEnv, rC3) := by
    with_unfolding_all rfl
  simp only [runDoc]
  rw [hnew]
  simp only [runUpdates]
  rw [c3_runner]

/-- **C3, as stated, is false**: `lastShoot` is zero-initialized, not
unset, so the first `sequence` fire adds 30° to direction 0 — there is
no absent-direction (aim) fallback.  The three bullets leave at π/6,
π/3 and π/2, whereas the claim says the first leaves at π/2 (the aim
direction toward the target at `(0, 100)`). -/
theorem C3_counterexample :
    firedDirections (runDoc demoEnv docC3 20 1)
      = some [GF.fin (pi64 / 6), GF.fin (pi64 / 3), GF.fin (pi64 / 2)] ∧
    (pi64 / 6 : ℚ) ≠ pi64 / 2 := by
  refine ⟨?_, by intro h; have hp := pi64_pos; linarith⟩
  rw [c3_run]
  with_unfolding_all rfl

/-- **C3 (amended)**: the `sequence` direction accumulates on the
process's zero-initialized `lastShoot`: the fan comes out as 30°, 60°,
90° in radians — each bullet 30° (`30·π/180`) beyond the previous one,
the first 30° beyond direction 0. -/
theorem C3_sequence_fan :
    firedDirections (runDoc demoEnv docC3 20 1)
      = some [GF.fin (pi64 / 6), GF.fin (pi64 / 3), GF.fin (pi64 / 2)] ∧
    GF.fin (pi64 / 6) =
      GF.add (GF.div (GF.mul (GF.fin 30) (GF.fin pi64)) (GF.fin 180)) (GF.fin 0) ∧
    GF.fin (pi64 / 3) =
      GF.add (GF.div (GF.mul (GF.fin 30) (GF.fin pi64)) (GF.fin 180))
        (GF.fin (pi64 / 6)) ∧
    GF.fin (pi64 / 2) =
      GF.add (GF.div (GF.mul (GF.fin 30) (GF.fin pi64)) (GF.fin 180))
        (GF.fin (pi64 / 3)) := by
  refine ⟨?_, by with_unfolding_all rfl, by with_unfolding_all rfl,
    by with_unfolding_all rfl⟩
  rw [c3_run]
  with_unfolding_all rfl

/-! ## Claim C4: entry-point selection by label prefix -/

/-- The entry processes of `NewRunner` are exactly the labeled actions
whose label has prefix `top`, in order. -/
theorem buildActionPhase_procs :
    ∀ (l : List BAction) (t : List (String × BAction)) (procs : List actionProcess),
      (buildActionPhase l t procs).2 =
        procs ++ (l.filter fun a => !(a.label == "") && hasPrefixGo a.label "top").map
          mkEntryProc := by
  intro l
  induction l with
  | nil => intro t procs; simp [buildActionPhase]
  | cons a rest ih =>
      intro t procs
      by_cases hl : a.label = ""
      · simp [buildActionPhase, hl, ih]
      · by_cases hp : hasPrefixGo a.label "top"
        · simp [buildActionPhase, hl, hp, ih]
        · simp [buildActionPhase, hl, hp, ih]

/-- A document whose only top-level action is labeled `Top`. -/
def docC4 : BulletML := ⟨"", [], [.mk "Top" []], []⟩

/-- **C4, as stated, is false for `"Top"`**: `strings.HasPrefix` is
case-sensitive, so an action labeled `Top` is *not* an entry point — the
runner for `docC4` starts with no action processes. -/
theorem C4_counterexample :
    (match NewRunnerGo demoEnv docC4 with
      | .ok (_, r) => some r.actionProcesses.length
      | _ => none) = some 0 ∧
    hasPrefixGo "Top" "top" = false := by
  refine ⟨by with_unfolding_all rfl, by with_unfolding_all rfl⟩

/-- **C4 (amended)**: on runner construction exactly the labeled actions
whose label starts with the case-sensitive prefix `top` (after
`prepare`) become entry processes: `top`, `top1`, `top-bar` and
`topping` do, `Top` and labels without the prefix do not. -/
theorem C4_entry_points (env0 : Env) (b b2 : BulletML) (env2 : Env) (r : RunnerModel)
    (hp : prepareNodeTree (normOpts env0) b = .ok b2)
    (h : NewRunnerGo env0 b = .ok (env2, r)) :
    r.actionProcesses =
      (b2.actions.filter fun a => !(a.label == "") && hasPrefixGo a.label "top").map
        mkEntryProc := by
  simp only [NewRunnerGo] at h
  rw [hp, Outcome.bind_ok] at h
  cases hbp : buildActionPhase b2.actions [] [] with
  | mk actionDefs procs =>
      rw [hbp] at h
      simp only [Outcome.ok.injEq, Prod.mk.injEq] at h
      obtain ⟨-, hr⟩ := h
      subst hr
      have := buildActionPhase_procs b2.actions [] []
      rw [hbp] at this
      simpa using this

/-- The six-label document instantiating `C4_entry_points`. -/
def docC4w : BulletML :=
  ⟨"", [],
    [.mk "top" [], .mk "top1" [], .mk "top-bar" [], .mk "Top" [], .mk "topping" [],
     .mk "x" []], []⟩

/-- `docC4w` after `prepare` (only the root type attribute changes). -/
def docC4wP : BulletML :=
  ⟨"none", [],
    [.mk "top" [], .mk "top1" [], .mk "top-bar" [], .mk "Top" [], .mk "topping" [],
     .mk "x" []], []⟩

/-- The runner built for `docC4w`: entry processes for `top`, `top1`,
`top-bar` and `topping` only. -/
def rC4w : RunnerModel :=
  { bullet := { speed := GF.fin 2 }
    isTop := true
    actionProcesses :=
      [mkEntryProc (.mk "top" []), mkEntryProc (.mk "top1" []),
       mkEntryProc (.mk "top-bar" []), mkEntryProc (.mk "topping" [])]
    tables :=
      ⟨[("top", .mk "top" []), ("top1", .mk "top1" []), ("top-bar", .mk "top-bar" []),
        ("Top", .mk "Top" []), ("topping", .mk "topping" []), ("x", .mk "x" [])],
       [], []⟩ }

/-- Witness for `C4_entry_points` at the six-label document. -/
theorem C4_entry_points_witness :
    rC4w.actionProcesses =
      (docC4wP.actions.filter fun a => !(a.label == "") && hasPrefixGo a.label "top").map
        mkEntryProc ∧
    rC4w.actionProcesses.length = 4 :=
  ⟨C4_entry_points demoEnv docC4w docC4wP demoEnv rC4w (by with_unfolding_all rfl)
      (by with_unfolding_all rfl),
   by with_unfolding_all rfl⟩

/-! ## Claim C9: direction interval after `ChangeDirection` completes -/

theorem applyChangeSpeed_direction (p : actionProcess) (rb : bulletModel) :
    (applyChangeSpeed p rb).direction = rb.direction := by
  unfold applyChangeSpeed
  split
  · rfl
  · split <;> rfl

theorem applyAccel_direction (p : actionProcess) (rb : bulletModel) :
    (applyAccel p rb).direction = rb.direction := by
  unfold applyAccel
  split
  · rfl
  · split <;> rfl

/-- A top action turning to absolute −90° over one frame:
`<changeDirection><direction type="absolute">-90</direction><term>1</term></changeDirection>`. -/
def docC9 : BulletML :=
  ⟨"", [],
    [.mk "top"
      [.cchangeDirection
        (.mk (some ⟨"absolute", .unary .sub (.basicLit .intLit 90)⟩)
          (some ⟨.basicLit .intLit 1⟩))]], []⟩

/-- **C9, as stated, is false at the boundary**: absolute −90° means
`(−90·π/180) − π/2 = −π` exactly, `normalizeDir` leaves −π unchanged,
and on the completion tick the bullet's direction becomes exactly −π —
which is *not* in the half-open interval (−π, π]. -/
theorem C9_counterexample :
    bulletDirection (runDoc demoEnv docC9 9 2) = some (GF.fin (-pi64)) ∧
    ¬ (-pi64 < -pi64 ∧ -pi64 ≤ pi64) := by
  refine ⟨by with_unfolding_all rfl, fun h => lt_irrefl _ h.1⟩

/-- **C9 (amended)**: on the tick at which `ticks = changeDirectionUntil`
the modifier phase sets the bullet's direction to the stored target, and
whenever that target came out of `normalizeDir` on a finite value the
direction lands in the *closed* interval [−π, π] (−π is attained, as
`C9_counterexample` shows). -/
theorem C9_direction_closed_interval (p : actionProcess) (rb : bulletModel) (q : ℚ)
    (ht : p.ticks = p.changeDirectionUntil)
    (htar : p.changeDirectionTarget = normalizeDirC (GF.fin q)) :
    ∃ q2 : ℚ, (applyModifiers p rb).direction = GF.fin q2 ∧
      -pi64 ≤ q2 ∧ q2 ≤ pi64 := by
  refine ⟨normalizeDirQ q, ?_, (normalizeDirQ_mem q).1, (normalizeDirQ_mem q).2⟩
  unfold applyModifiers
  rw [applyAccel_direction]
  unfold applyChangeDirection
  rw [if_neg (by omega), if_pos ht]
  show p.changeDirectionTarget = GF.fin (normalizeDirQ q)
  rw [htar]
  show GF.fin (normalizeDirQC q) = GF.fin (normalizeDirQ q)
  rw [normalizeDirQC_eq]

/-- The process instantiating `C9_direction_closed_interval` at the
−π target of `docC9`. -/
def pC9w : actionProcess :=
  { ticks := 1, changeDirectionUntil := 1,
    changeDirectionTarget := normalizeDirC (GF.fin (-pi64)) }

/-- Witness for `C9_direction_closed_interval`. -/
theorem C9_direction_closed_interval_witness :
    ∃ q2 : ℚ, (applyModifiers pC9w {}).direction = GF.fin q2 ∧
      -pi64 ≤ q2 ∧ q2 ≤ pi64 :=
  C9_direction_closed_interval pC9w {} (-pi64) rfl rfl

end BulletMLProof
